import Mathlib

/-!
Verification of the audit-chain ledger and webhook dispatcher of
`packages/ee/server-only/webhooks/webhook-service.ts` against its
natural-language specification.

The TypeScript code is shallowly embedded:

* JavaScript strings are `String`/`List Char`; `JSON.stringify` of the
  fixed-shape objects appearing in the source is modelled character by
  character (including the JS behaviour that a property whose value is
  `undefined` is omitted, while `null` is serialized as `null`, and the
  escaping of `"` and `\` inside string literals; control-character
  escapes do not occur in the values exercised here).
* `crypto.createHash('sha256')...digest('hex')` and
  `crypto.createHmac('sha256', secret)...digest('hex')` are opaque to the
  embedding: every definition and theorem is parameterized by the digest
  function (`hash : String → String`, `hmac : String → String → String`).
  Collision-resistance, where a property needs it, appears as an explicit
  `Function.Injective hash` hypothesis; concrete witnesses instantiate the
  parameter with `id`, which is injective and, like any digest, a function
  of the serialized input only.
* `Date` values are carried as their ISO strings where the code compares
  or hashes ISO strings, and as integer minutes where the code does
  arithmetic on minutes (`calculateNextRetryTime`).
* Database rows (`DocumentAuditLog`, `Webhook`, `WebhookDelivery`,
  `WebhookRetry` of `schema.prisma`) are structures; the store is an
  explicit record of lists threaded through the operations.
-/

set_option maxRecDepth 100000

namespace JsStr

/-- JS digit test, `'0' ≤ c ≤ '9'`. -/
def isDig (c : Char) : Bool := '0' ≤ c && c ≤ '9'

/-- One character of `JSON.stringify` string escaping: `"` and `\` get a
backslash, everything else is emitted as itself. -/
def escC (c : Char) : List Char :=
  if c = '"' then ['\\', c] else if c = '\\' then ['\\', c] else [c]

/-- `JSON.stringify` escaping of a whole character list. -/
def escL : List Char → List Char
  | [] => []
  | c :: cs => escC c ++ escL cs

/-- A JSON string literal: opening quote, escaped content, closing quote. -/
def strL (s : String) : List Char := '"' :: (escL s.toList ++ ['"'])

/-- The decimal digit character for `d < 10`. -/
def dCh (d : Nat) : Char := Char.ofNat (48 + d)

/-- Fuel-driven most-significant-first decimal digits of `n` (fuel-total so
that it reduces in the kernel; `natL` supplies enough fuel). -/
def natLAux : Nat → Nat → List Char
  | 0, _ => []
  | fuel + 1, n => if n = 0 then [] else natLAux fuel (n / 10) ++ [dCh (n % 10)]

/-- Decimal notation of a natural number, as `JSON.stringify` prints it. -/
def natL (n : Nat) : List Char := if n = 0 then ['0'] else natLAux (n + 1) n

/-- Decimal notation of an integer, as `JSON.stringify` prints it. -/
def intL (i : Int) : List Char := if i < 0 then '-' :: natL i.natAbs else natL i.natAbs

/-- The characters `null`, the JSON serialization of a JS `null`
(and the sentinel the verifier sees for absent optional columns). -/
def nullL : List Char := ['n', 'u', 'l', 'l']

/-- Serialization of a nullable number column as the verifier rereads it. -/
def optIntL : Option Int → List Char
  | none => nullL
  | some i => intL i

/-- Serialization of a nullable string column as the verifier rereads it. -/
def optStrL : Option String → List Char
  | none => nullL
  | some s => strL s

/-- Value of a most-significant-first digit string. -/
def natVal (ds : List Char) : Nat := ds.foldl (fun a c => 10 * a + (c.toNat - 48)) 0

/-- Parse a decimal natural number greedily; fails on no digits. -/
def parseNat (s : List Char) : Option (Nat × List Char) :=
  let ds := s.takeWhile isDig
  if ds.isEmpty then none else some (natVal ds, s.dropWhile isDig)

/-- Parse an optionally `-`-signed decimal integer. -/
def parseInt (s : List Char) : Option (Int × List Char) :=
  match s with
  | [] => none
  | c :: r =>
    if c = '-' then (parseNat r).map (fun p => (-(p.1 : Int), p.2))
    else (parseNat (c :: r)).map (fun p => ((p.1 : Int), p.2))

/-- Consume an exact literal, returning the remainder. -/
def parseLit : List Char → List Char → Option (List Char)
  | [], s => some s
  | _ :: _, [] => none
  | c :: cs, d :: ds => if c = d then parseLit cs ds else none

/-- Undo `escL` up to the closing unescaped quote, returning content and
remainder. -/
def unesc : List Char → Option (List Char × List Char)
  | [] => none
  | c :: r =>
    if c = '"' then some ([], r)
    else if c = '\\' then
      match r with
      | [] => none
      | d :: r2 => (unesc r2).map (fun p => (d :: p.1, p.2))
    else (unesc r).map (fun p => (c :: p.1, p.2))

/-- Parse a JSON string literal, returning its unescaped content. -/
def parseStr (s : List Char) : Option (List Char × List Char) :=
  match s with
  | [] => none
  | c :: r => if c = '"' then unesc r else none

/-- Parse `null` or an integer, for a nullable number column. -/
def parseOptInt (s : List Char) : Option (Option Int × List Char) :=
  match parseLit nullL s with
  | some r => some (none, r)
  | none => (parseInt s).map (fun p => (some p.1, p.2))

/-- Parse `null` or a string literal, for a nullable string column. -/
def parseOptStr (s : List Char) : Option (Option String × List Char) :=
  match parseLit nullL s with
  | some r => some (none, r)
  | none => (parseStr s).map (fun p => (some (String.mk p.1), p.2))

/-- Parse a string literal, packaging the content as a `String`. -/
def parseStrS (s : List Char) : Option (String × List Char) :=
  (parseStr s).map (fun p => (String.mk p.1, p.2))

/-- True when the input does not continue with a digit (so a greedy
number parse just before it stops exactly there). -/
def headNotDig : List Char → Bool
  | [] => true
  | c :: _ => !isDig c

/-- Consume a fixed key literal, then parse its value with `p`. -/
def parseKey (ks : List Char) (p : List Char → Option (α × List Char)) (s : List Char) :
    Option (α × List Char) :=
  (parseLit ks s).bind p

end JsStr

namespace AuditTrail

open JsStr

/-- The argument record of `EnhancedAuditService.logDocumentEvent`: `data`
already carries `JSON.stringify(data)` when present (the code computes
`data ? JSON.stringify(data) : null` before both hashing and storing), the
optional fields are JS `undefined` when absent. -/
structure LogInput where
  documentId : Int
  userId : Option Int
  recipientId : Option Int
  eventType : String
  data : Option String
  ip : Option String
  userAgent : Option String
deriving DecidableEq

/-- A stored `DocumentAuditLog` row (schema.prisma): `createdAt` is the
DB-assigned `@default(now())` timestamp, carried as its ISO string. -/
structure StoredLog where
  documentId : Int
  userId : Option Int
  recipientId : Option Int
  type : String
  data : Option String
  ip : Option String
  userAgent : Option String
  createdAt : String
  hash : String
deriving DecidableEq

/-- `JSON.stringify(entryData)` as computed inside `logDocumentEvent`: keys
in literal order `documentId, userId, recipientId, eventType, data,
timestamp, ip, userAgent, previousHash`; a property holding JS `undefined`
(absent `userId`/`recipientId`/`ip`/`userAgent`) is omitted entirely, while
an absent `data` was already turned into `null`. -/
def appendL (e : LogInput) (timestamp : String) (previousHash : String) : List Char :=
  ['\x7b'] ++ ("\"documentId\":").toList ++ intL e.documentId
    ++ (match e.userId with
        | none => []
        | some u => (",\"userId\":").toList ++ intL u)
    ++ (match e.recipientId with
        | none => []
        | some r => (",\"recipientId\":").toList ++ intL r)
    ++ (",\"eventType\":").toList ++ strL e.eventType
    ++ (",\"data\":").toList ++ optStrL e.data
    ++ (",\"timestamp\":").toList ++ strL timestamp
    ++ (match e.ip with
        | none => []
        | some s => (",\"ip\":").toList ++ strL s)
    ++ (match e.userAgent with
        | none => []
        | some s => (",\"userAgent\":").toList ++ strL s)
    ++ (",\"previousHash\":").toList ++ strL previousHash
    ++ ['\x7d']

/-- The serialization hashed at append time
(`createEntryHash` input in `logDocumentEvent`). -/
def serializeAppend (e : LogInput) (timestamp previousHash : String) : String :=
  String.mk (appendL e timestamp previousHash)

/-- The reconstructed `entryData` of `verifyAuditTrailIntegrity`, as a flat
record: all nine keys are always present because a SQL `NULL` column reads
back as JS `null`, which `JSON.stringify` keeps. -/
structure VerifyFields where
  documentId : Int
  userId : Option Int
  recipientId : Option Int
  type : String
  data : Option String
  createdAt : String
  ip : Option String
  userAgent : Option String
  prev : String
deriving DecidableEq

/-- The fields `verifyAuditTrailIntegrity` rereads from a stored row (the
stored `hash` itself is not part of the rehashed data). -/
def fieldsOf (l : StoredLog) (previousHash : String) : VerifyFields :=
  { documentId := l.documentId
    userId := l.userId
    recipientId := l.recipientId
    type := l.type
    data := l.data
    createdAt := l.createdAt
    ip := l.ip
    userAgent := l.userAgent
    prev := previousHash }

/-- Opening brace and first key of the verification serialization. -/
def kDoc : List Char := '\x7b' :: ("\"documentId\":").toList

/-- Key fragment between `documentId` and `userId`. -/
def kUser : List Char := (",\"userId\":").toList

/-- Key fragment before `recipientId`. -/
def kRec : List Char := (",\"recipientId\":").toList

/-- Key fragment before `eventType`. -/
def kEvt : List Char := (",\"eventType\":").toList

/-- Key fragment before `data`. -/
def kData : List Char := (",\"data\":").toList

/-- Key fragment before `timestamp`. -/
def kTime : List Char := (",\"timestamp\":").toList

/-- Key fragment before `ip`. -/
def kIp : List Char := (",\"ip\":").toList

/-- Key fragment before `userAgent`. -/
def kUA : List Char := (",\"userAgent\":").toList

/-- Key fragment before `previousHash`. -/
def kPrev : List Char := (",\"previousHash\":").toList

/-- `JSON.stringify` of the reconstructed `entryData` in
`verifyAuditTrailIntegrity`: same key order as at append time, but every
key present (`null` for absent columns) and `timestamp` taken from the
stored row's `createdAt`. -/
def vfL (f : VerifyFields) : List Char :=
  kDoc ++ (intL f.documentId
    ++ (kUser ++ (optIntL f.userId
    ++ (kRec ++ (optIntL f.recipientId
    ++ (kEvt ++ (strL f.type
    ++ (kData ++ (optStrL f.data
    ++ (kTime ++ (strL f.createdAt
    ++ (kIp ++ (optStrL f.ip
    ++ (kUA ++ (optStrL f.userAgent
    ++ (kPrev ++ (strL f.prev
    ++ ['\x7d'])))))))))))))))))

/-- The serialization rehashed at verification time. -/
def serializeVerify (l : StoredLog) (previousHash : String) : String :=
  String.mk (vfL (fieldsOf l previousHash))

/-- One `logDocumentEvent` call: hash the append-time serialization (with
`timestamp := new Date()` of the call, `previousHash` from the latest
stored entry) and persist a row whose `createdAt` is the DB insert time
`dbTime`.  The app-side `appTime` itself is never stored. -/
def appendLog (hash : String → String) (prev : Option StoredLog) (e : LogInput)
    (appTime dbTime : String) : StoredLog :=
  { documentId := e.documentId
    userId := e.userId
    recipientId := e.recipientId
    type := e.eventType
    data := e.data
    ip := e.ip
    userAgent := e.userAgent
    createdAt := dbTime
    hash := hash (serializeAppend e appTime
      (match prev with
       | none => ""
       | some q => q.hash)) }

/-- Run a sequence of `logDocumentEvent` calls for one document, each call
given as (input, app-side `new Date()` ISO string, DB `createdAt` ISO
string), chaining `previousHash` through the stored rows. -/
def runAppendsFrom (hash : String → String) (prev : Option StoredLog) :
    List (LogInput × String × String) → List StoredLog
  | [] => []
  | (e, tApp, tDb) :: rest =>
    let s := appendLog hash prev e tApp tDb
    s :: runAppendsFrom hash (some s) rest

/-- A whole trail produced by appends on a fresh document. -/
def runAppends (hash : String → String) (calls : List (LogInput × String × String)) :
    List StoredLog :=
  runAppendsFrom hash none calls

/-- The verification walk of `verifyAuditTrailIntegrity`: rehash each row's
stored fields with the running `previousHash`, compare with the stored
hash, and thread the stored hash forward; `false` at the first mismatch. -/
def verifyFrom (hash : String → String) (previousHash : String) : List StoredLog → Bool
  | [] => true
  | l :: ls =>
    if l.hash = hash (serializeVerify l previousHash) then verifyFrom hash l.hash ls
    else false

/-- `EnhancedAuditService.verifyAuditTrailIntegrity`: start the walk with
the empty-string previous hash; an empty trail is valid. -/
def verifyAuditTrailIntegrity (hash : String → String) (logs : List StoredLog) : Bool :=
  verifyFrom hash "" logs

/-- The result of `getDocumentAuditTrail` for a stored (createdAt-ordered)
trail: the entries together with the integrity flag. -/
def readTrail (hash : String → String) (logs : List StoredLog) : List StoredLog × Bool :=
  (logs, verifyAuditTrailIntegrity hash logs)

/-- Parse the id block of the verification-time serialization:
`documentId`, `userId`, `recipientId`. -/
def parseVF1 (s : List Char) : Option ((Int × Option Int × Option Int) × List Char) := do
  let a ← parseKey kDoc parseInt s
  let b ← parseKey kUser parseOptInt a.2
  let c ← parseKey kRec parseOptInt b.2
  some ((a.1, b.1, c.1), c.2)

/-- Parse the middle block: `eventType`, `data`, `timestamp`. -/
def parseVF2 (s : List Char) :
    Option ((String × Option String × String) × List Char) := do
  let a ← parseKey kEvt parseStrS s
  let b ← parseKey kData parseOptStr a.2
  let c ← parseKey kTime parseStrS b.2
  some ((a.1, b.1, c.1), c.2)

/-- Parse the trailing block: `ip`, `userAgent`, `previousHash`, and the
closing brace. -/
def parseVF3 (s : List Char) :
    Option ((Option String × Option String × String) × List Char) := do
  let a ← parseKey kIp parseOptStr s
  let b ← parseKey kUA parseOptStr a.2
  let c ← parseKey kPrev parseStrS b.2
  let r ← parseLit (['\x7d']) c.2
  some ((a.1, b.1, c.1), r)

/-- Parse the verification-time serialization back into its fields
(left inverse of `vfL`, used to prove `vfL` injective). -/
def parseVF (s : List Char) : Option (VerifyFields × List Char) := do
  let a ← parseVF1 s
  let b ← parseVF2 a.2
  let c ← parseVF3 b.2
  some ({ documentId := a.1.1
          userId := a.1.2.1
          recipientId := a.1.2.2
          type := b.1.1
          data := b.1.2.1
          createdAt := b.1.2.2
          ip := c.1.1
          userAgent := c.1.2.1
          prev := c.1.2.2 }, c.2)

/-- Concrete stand-in for the sha256 hex digest: the identity function.
Like the real digest it is a deterministic function of the serialized
input, and it is injective, so it satisfies the collision-freeness
hypotheses of the general theorems; witnesses and counterexamples
instantiate the digest parameter with it. -/
def idDigest : String → String := fun s => s

/-- A `JSON.stringify(data)` value as stored in the `data` column. -/
def sampleData : String := "\x7b\"title\":\"NDA\"\x7d"

/-- Append input for the round-trip scenario: every optional field
present, so only the timestamp discrepancy is in play. -/
def c1Input : LogInput :=
  { documentId := 7
    userId := some 3
    recipientId := some 14
    eventType := "DOCUMENT_CREATED"
    data := some sampleData
    ip := some "10.0.0.1"
    userAgent := some "Mozilla/5.0" }

/-- The app-side `new Date()` ISO string hashed by `logDocumentEvent`. -/
def c1AppTime : String := "2024-05-01T10:00:00.000Z"

/-- The DB-assigned `createdAt` of the inserted row, 42 ms later. -/
def c1DbTime : String := "2024-05-01T10:00:00.042Z"

/-- One `logDocumentEvent` call with every optional field present. -/
def c1Calls : List (LogInput × String × String) := [(c1Input, c1AppTime, c1DbTime)]

/-- Append input with an absent optional field (`ip` is `undefined`). -/
def c3Input : LogInput :=
  { documentId := 9
    userId := some 3
    recipientId := none
    eventType := "DOCUMENT_VIEWED"
    data := some sampleData
    ip := none
    userAgent := some "Mozilla/5.0" }

/-- For the sentinel-serialization scenario the DB `createdAt` agrees with
the hashed app-side timestamp, isolating the undefined-vs-null issue. -/
def c3Time : String := "2024-06-02T09:30:00.000Z"

/-- One append whose row's `createdAt` equals the hashed timestamp. -/
def c3Calls : List (LogInput × String × String) := [(c3Input, c3Time, c3Time)]

/-- First append input of the three-entry tamper scenario. -/
def c4In1 : LogInput :=
  { documentId := 21
    userId := some 5
    recipientId := some 31
    eventType := "DOCUMENT_CREATED"
    data := some sampleData
    ip := some "10.0.0.8"
    userAgent := some "curl/8.0" }

/-- Second (middle) append input of the tamper scenario. -/
def c4In2 : LogInput := { c4In1 with eventType := "DOCUMENT_SENT", recipientId := some 32 }

/-- Third append input of the tamper scenario. -/
def c4In3 : LogInput := { c4In1 with eventType := "COMPLETED_SIGNING", recipientId := some 32, ip := some "172.16.0.9" }

/-- Call times of the tamper scenario: entries 1 and 3 get a `createdAt`
equal to their hashed timestamp, the middle entry's row is stamped 7 ms
late. -/
def c4T1 : String := "2024-07-01T08:00:00.000Z"

/-- App-side timestamp hashed for the middle entry. -/
def c4T2 : String := "2024-07-01T08:05:00.000Z"

/-- DB `createdAt` of the middle entry's row. -/
def c4D2 : String := "2024-07-01T08:05:00.007Z"

/-- Timestamp of the third entry. -/
def c4T3 : String := "2024-07-01T08:09:00.000Z"

/-- The three appends of the tamper scenario. -/
def c4Calls : List (LogInput × String × String) :=
  [(c4In1, c4T1, c4T1), (c4In2, c4T2, c4D2), (c4In3, c4T3, c4T3)]

/-- First stored row of the tamper scenario. -/
def c4s1 : StoredLog := appendLog idDigest none c4In1 c4T1 c4T1

/-- Middle stored row of the tamper scenario. -/
def c4s2 : StoredLog := appendLog idDigest (some c4s1) c4In2 c4T2 c4D2

/-- Third stored row of the tamper scenario. -/
def c4s3 : StoredLog := appendLog idDigest (some c4s2) c4In3 c4T3 c4T3

/-- The middle row with its stored `createdAt` field edited to the
timestamp that was hashed at append time. -/
def c4Tampered : StoredLog := { c4s2 with createdAt := c4T2 }

/-- A two-append trail whose DB timestamps coincide with the hashed ones
and whose optional fields are all present, so verification passes. -/
def c10Calls : List (LogInput × String × String) :=
  [(c4In1, c4T1, c4T1), (c4In2, c4T2, c4T2)]

/-- The stored trail of `c10Calls` under the stand-in digest. -/
def c10Trail : List StoredLog := runAppends idDigest c10Calls

/-- The first entry of `c10Trail` with its stored `userId` edited. -/
def c10TamperedHead : StoredLog :=
  { appendLog idDigest none c4In1 c4T1 c4T1 with userId := some 99 }

/-- The row stored by the `c1Calls` append, with the digest field cleared:
what `verifyAuditTrailIntegrity` rehashes is independent of the stored
digest, so this digest-free row names the verification-side input. -/
def c1Stored0 : StoredLog :=
  { documentId := 7
    userId := some 3
    recipientId := some 14
    type := "DOCUMENT_CREATED"
    data := some sampleData
    ip := some "10.0.0.1"
    userAgent := some "Mozilla/5.0"
    createdAt := c1DbTime
    hash := "" }

/-- The row stored by the `c3Calls` append, digest field cleared. -/
def c3Stored0 : StoredLog :=
  { documentId := 9
    userId := some 3
    recipientId := none
    type := "DOCUMENT_VIEWED"
    data := some sampleData
    ip := none
    userAgent := some "Mozilla/5.0"
    createdAt := c3Time
    hash := "" }

end AuditTrail

namespace WireJson

mutual

/-- A JSON value as handled by `JSON.stringify`/`JSON.parse` for the
webhook envelope: the `data` field of `triggerWebhooks` is an arbitrary
JSON-serializable record.  Numbers are modelled as integers (the envelope
and the payloads exercised here carry no fractional numbers; IEEE-754
formatting is orthogonal to the signing property). -/
inductive Jval where
  | jnull : Jval
  | jbool : Bool → Jval
  | jnum : Int → Jval
  | jstr : String → Jval
  | jarr : Jarr → Jval
  | jobj : Jobj → Jval
deriving DecidableEq

/-- The element list of a JSON array (insertion order preserved). -/
inductive Jarr where
  | anil : Jarr
  | acons : Jval → Jarr → Jarr
deriving DecidableEq

/-- The member list of a JSON object (JS property insertion order). -/
inductive Jobj where
  | onil : Jobj
  | ocons : String → Jval → Jobj → Jobj
deriving DecidableEq

end

mutual

/-- `JSON.stringify` of a value (no whitespace, keys in order). -/
def encV : Jval → List Char
  | .jnull => JsStr.nullL
  | .jbool b => if b then ['t', 'r', 'u', 'e'] else ['f', 'a', 'l', 's', 'e']
  | .jnum i => JsStr.intL i
  | .jstr s => JsStr.strL s
  | .jarr a => '[' :: (encA a ++ [']'])
  | .jobj o => '\x7b' :: (encO o ++ ['\x7d'])

/-- Serialization of an array's elements, comma-separated. -/
def encA : Jarr → List Char
  | .anil => []
  | .acons v t => encV v ++ encATail t

/-- Serialization of the second and later array elements. -/
def encATail : Jarr → List Char
  | .anil => []
  | .acons v t => ',' :: (encV v ++ encATail t)

/-- Serialization of an object's members, comma-separated. -/
def encO : Jobj → List Char
  | .onil => []
  | .ocons k v t => JsStr.strL k ++ (':' :: encV v) ++ encOTail t

/-- Serialization of the second and later object members. -/
def encOTail : Jobj → List Char
  | .onil => []
  | .ocons k v t => ',' :: (JsStr.strL k ++ (':' :: encV v) ++ encOTail t)

end

/-- `JSON.stringify` producing a JS string. -/
def stringifyJ (v : Jval) : String := String.mk (encV v)

mutual

/-- Fuel-driven `JSON.parse` on the whitespace-free strings produced by
`JSON.stringify` (the only strings the service ever re-parses). -/
def parseV : Nat → List Char → Option (Jval × List Char)
  | 0, _ => none
  | _ + 1, [] => none
  | n + 1, c :: r =>
    if c = 'n' then (JsStr.parseLit ['u', 'l', 'l'] r).map (fun r2 => (.jnull, r2))
    else if c = 't' then (JsStr.parseLit ['r', 'u', 'e'] r).map (fun r2 => (.jbool true, r2))
    else if c = 'f' then (JsStr.parseLit ['a', 'l', 's', 'e'] r).map (fun r2 => (.jbool false, r2))
    else if c = '"' then (JsStr.unesc r).map (fun p => (.jstr (String.mk p.1), p.2))
    else if c = '[' then
      match r with
      | ']' :: r2 => some (.jarr .anil, r2)
      | _ => (parseAElems n r).map (fun p => (.jarr p.1, p.2))
    else if c = '\x7b' then
      match r with
      | '\x7d' :: r2 => some (.jobj .onil, r2)
      | _ => (parseOMems n r).map (fun p => (.jobj p.1, p.2))
    else (JsStr.parseInt (c :: r)).map (fun p => (.jnum p.1, p.2))

/-- Parse one or more comma-separated array elements and the closing
bracket. -/
def parseAElems : Nat → List Char → Option (Jarr × List Char)
  | 0, _ => none
  | n + 1, s =>
    (parseV n s).bind fun p =>
      match p.2 with
      | ',' :: r2 => (parseAElems n r2).map (fun q => (.acons p.1 q.1, q.2))
      | ']' :: r2 => some (.acons p.1 .anil, r2)
      | _ => none

/-- Parse one or more comma-separated object members and the closing
brace. -/
def parseOMems : Nat → List Char → Option (Jobj × List Char)
  | 0, _ => none
  | n + 1, s =>
    (JsStr.parseStr s).bind fun k =>
      match k.2 with
      | ':' :: r2 =>
        (parseV n r2).bind fun p =>
          match p.2 with
          | ',' :: r3 => (parseOMems n r3).map (fun q => (.ocons (String.mk k.1) p.1 q.1, q.2))
          | '\x7d' :: r3 => some (.ocons (String.mk k.1) p.1 .onil, r3)
          | _ => none
      | _ => none

end

mutual

/-- Fuel needed by `parseV` for a value (bounded by twice its printed
length). -/
def szV : Jval → Nat
  | .jnull => 1
  | .jbool _ => 1
  | .jnum _ => 1
  | .jstr _ => 1
  | .jarr a => szA a + 2
  | .jobj o => szO o + 2

/-- Fuel needed by `parseAElems` for an element list. -/
def szA : Jarr → Nat
  | .anil => 0
  | .acons v t => 1 + szV v + szA t

/-- Fuel needed by `parseOMems` for a member list. -/
def szO : Jobj → Nat
  | .onil => 0
  | .ocons _ v t => 1 + szV v + szO t

end

/-- `JSON.parse` of a whole string: parse with ample fuel (`JSON.parse`
itself has no fuel; any bound that covers every serialized value gives the
same results on the canonical strings the service stores and re-parses)
and require the input to be fully consumed; `none` models a thrown
`SyntaxError`. -/
def parseJson (s : String) : Option Jval :=
  match parseV (2 * s.length + 2) s.toList with
  | some (v, []) => some v
  | _ => none

/-- Lookup of a property in an object member list (first occurrence). -/
def objLookup (k : String) : Jobj → Option Jval
  | .onil => none
  | .ocons k2 v t => if k2 = k then some v else objLookup k t

/-- JS property access `payload.f` coerced to a string, as used for the
`payload.id` / `payload.event` of a re-parsed envelope (always a string
property in every payload the service stores). -/
def fieldStr (v : Jval) (k : String) : String :=
  match v with
  | .jobj o =>
    match objLookup k o with
    | some (.jstr s) => s
    | _ => ""
  | _ => ""

end WireJson

namespace WS

open WireJson

/-- A `Webhook` row (schema.prisma, webhook-service variant): only the
columns the dispatcher reads. -/
structure Webhook where
  id : Nat
  url : String
  events : List String
  secret : String
  isActive : Bool
  teamId : Option Int
deriving DecidableEq

/-- A `WebhookDelivery` row: one delivery attempt's recorded outcome. -/
structure WebhookDelivery where
  webhookId : Nat
  deliveryId : String
  success : Bool
  statusCode : Nat
  statusText : String
deriving DecidableEq

/-- A `WebhookRetry` row: pending retry state for one failed delivery. -/
structure WebhookRetry where
  id : Nat
  webhookId : Nat
  payload : String
  retryCount : Nat
  nextRetryAt : Int
  lastError : Option String
deriving DecidableEq

/-- The relational store as the dispatcher sees it.  `nextRetryId` models
the autoincrement id sequence of `WebhookRetry`. -/
structure Db where
  webhooks : List Webhook
  deliveries : List WebhookDelivery
  retries : List WebhookRetry
  nextRetryId : Nat
deriving DecidableEq

/-- Outcome of one `axios.post`: a resolved 2xx response, or a rejection
carrying an optional HTTP response (`none` for a network/connection
failure with no response at all). -/
inductive HttpOutcome where
  | ok (status : Nat) (statusText : String)
  | fail (response : Option (Nat × String)) (message : String)
deriving DecidableEq

/-- `error.response?.status || 0`: no response reads as status 0 (and a
status of 0 is its own falsy fallback). -/
def errStatus : Option (Nat × String) → Nat
  | none => 0
  | some p => p.1

/-- `error.response?.statusText || error.message`: JS `||` falls back on
an absent response and on an empty statusText alike. -/
def errText : Option (Nat × String) → String → String
  | none, msg => msg
  | some p, msg => if p.2 = "" then msg else p.2

/-- `WebhookService.shouldRetry`: retry on network error (0), 5xx, 429
and 408. -/
def shouldRetry (statusCode : Nat) : Bool :=
  statusCode == 0 || decide (500 ≤ statusCode) || statusCode == 429 || statusCode == 408

/-- The fixed backoff table `[1, 5, 15, 30, 60][retryCount] || 60` of
`calculateNextRetryTime`, in minutes. -/
def retryDelayMinutes (retryCount : Nat) : Nat :=
  [1, 5, 15, 30, 60].getD retryCount 60

/-- `WebhookService.calculateNextRetryTime`: now plus the backoff delay
(time carried in minutes). -/
def calculateNextRetryTime (retryCount : Nat) (now : Int) : Int :=
  now + retryDelayMinutes retryCount

/-- One outbound HTTP POST as transmitted by axios, with the headers the
service sets.  `taskId` is trace instrumentation naming the retry task an
attempt was made for (`none` for initial dispatch attempts). -/
structure SentRequest where
  webhookId : Nat
  taskId : Option Nat
  url : String
  body : String
  signature : String
  eventHeader : String
  deliveryHeader : String
  retryCountHeader : Option Nat
deriving DecidableEq

/-- The per-webhook object resolved inside `triggerWebhooks`. -/
inductive DeliveryResult where
  | ok (webhookId : Nat) (statusCode : Nat)
  | err (webhookId : Nat) (statusCode : Nat) (error : String)
deriving DecidableEq

/-- The summary `triggerWebhooks` returns. -/
structure TriggerSummary where
  success : Bool
  count : Nat
  results : List DeliveryResult
deriving DecidableEq

/-- The `findMany` filter of `triggerWebhooks`: active, subscribed to the
event, and — only when a truthy `teamId` is passed — owned by that team
(`teamId ? { teamId } : {}`; a JS-falsy team id 0 adds no filter). -/
def matchesEvent (event : String) (teamId : Option Int) (w : Webhook) : Bool :=
  w.isActive && w.events.contains event &&
    (match teamId with
     | none => true
     | some t => if t = 0 then true else w.teamId == some t)

/-- The JSON envelope `{id, event, createdAt, data}` built once per
dispatch. -/
def payloadJ (payloadId event createdAt : String) (data : Jval) : Jval :=
  .jobj (.ocons "id" (.jstr payloadId)
    (.ocons "event" (.jstr event)
      (.ocons "createdAt" (.jstr createdAt)
        (.ocons "data" data .onil))))

/-- One webhook's delivery attempt inside `triggerWebhooks`: sign the
serialized envelope with the subscription secret, POST it, log exactly one
`WebhookDelivery` row for the attempt, and on a retryable failure enqueue
a `WebhookRetry` at count 0 whose payload is the serialized envelope. -/
def triggerStep (hmac : String → String → String) (event payloadId body : String)
    (now : Int) (http : Nat → HttpOutcome) (db : Db) (w : Webhook) :
    Db × SentRequest × DeliveryResult :=
  let req : SentRequest :=
    { webhookId := w.id
      taskId := none
      url := w.url
      body := body
      signature := hmac w.secret body
      eventHeader := event
      deliveryHeader := payloadId
      retryCountHeader := none }
  match http w.id with
  | .ok st txt =>
    ({ db with deliveries := db.deliveries ++
        [{ webhookId := w.id, deliveryId := payloadId, success := true,
           statusCode := st, statusText := txt }] }, req, .ok w.id st)
  | .fail resp msg =>
    let sc := errStatus resp
    let txt := errText resp msg
    let db1 := { db with deliveries := db.deliveries ++
        [{ webhookId := w.id, deliveryId := payloadId, success := false,
           statusCode := sc, statusText := txt }] }
    let db2 :=
      if shouldRetry sc then
        { db1 with
          retries := db1.retries ++
            [{ id := db1.nextRetryId, webhookId := w.id, payload := body,
               retryCount := 0, nextRetryAt := calculateNextRetryTime 0 now,
               lastError := none }]
          nextRetryId := db1.nextRetryId + 1 }
      else db1
    (db2, req, .err w.id sc txt)

/-- Fold `triggerStep` over the matched webhooks, collecting the request
trace and per-webhook results in order. -/
def runTrigger (hmac : String → String → String) (event payloadId body : String)
    (now : Int) (http : Nat → HttpOutcome) :
    Db → List Webhook → Db × List SentRequest × List DeliveryResult
  | db, [] => (db, [], [])
  | db, w :: ws =>
    let x := triggerStep hmac event payloadId body now http db w
    let rest := runTrigger hmac event payloadId body now http x.1 ws
    (rest.1, x.2.1 :: rest.2.1, x.2.2 :: rest.2.2)

/-- `WebhookService.triggerWebhooks`: select the active matching
subscriptions; with none, return `{success: true, count: 0}` untouched;
otherwise build the envelope once (`payloadId` models `generateId()`,
`nowIso` the envelope's `createdAt`) and attempt delivery to each.
Failures are captured per webhook, never thrown, and the summary's
`success` is unconditionally true. -/
def triggerWebhooks (hmac : String → String → String) (db : Db) (event : String)
    (data : Jval) (teamId : Option Int) (payloadId nowIso : String) (now : Int)
    (http : Nat → HttpOutcome) : TriggerSummary × Db × List SentRequest :=
  let matched := db.webhooks.filter (matchesEvent event teamId)
  if matched.isEmpty then ({ success := true, count := 0, results := [] }, db, [])
  else
    let body := stringifyJ (payloadJ payloadId event nowIso data)
    let r := runTrigger hmac event payloadId body now http db matched
    ({ success := true, count := matched.length, results := r.2.2 }, r.1, r.2.1)

/-- The `include: { webhook: true }` relation lookup of a retry task. -/
def findWebhook (db : Db) (wid : Nat) : Option Webhook :=
  db.webhooks.find? (fun w => w.id == wid)

/-- `prisma.webhookRetry.delete({ where: { id } })`. -/
def removeRetry (tid : Nat) (rs : List WebhookRetry) : List WebhookRetry :=
  rs.filter (fun t => !(t.id == tid))

/-- `prisma.webhookRetry.update({ where: { id }, data })`. -/
def updateRetry (tid : Nat) (f : WebhookRetry → WebhookRetry)
    (rs : List WebhookRetry) : List WebhookRetry :=
  rs.map (fun t => if t.id = tid then f t else t)

/-- The per-task object resolved inside `processRetryQueue`. -/
inductive RetryResult where
  | inactive (retryId : Nat)
  | ok (retryId : Nat) (statusCode : Nat)
  | err (retryId : Nat) (statusCode : Nat) (error : String) (retryCount : Nat)
deriving DecidableEq

/-- The shared catch-path bookkeeping of a failed retry attempt: at the
fifth failure or on a non-retryable status the task is deleted, otherwise
its count, next-retry time and last error are updated.  No
`WebhookDelivery` row is written on this path. -/
def retryFailure (now : Int) (db : Db) (t : WebhookRetry) (sc : Nat) (txt : String) :
    Db × RetryResult :=
  let newCount := t.retryCount + 1
  let upd := fun u : WebhookRetry =>
    { u with retryCount := newCount
             nextRetryAt := calculateNextRetryTime newCount now
             lastError := some txt }
  if 5 ≤ newCount || !shouldRetry sc then
    ({ db with retries := removeRetry t.id db.retries }, .err t.id sc txt newCount)
  else
    ({ db with retries := updateRetry t.id upd db.retries }, .err t.id sc txt newCount)

/-- Processing of one due task inside `processRetryQueue`: a missing or
inactive owning webhook deletes the task with no attempt; otherwise the
stored payload is re-parsed and re-sent with the signature computed over
the stored payload string, logging a delivery row and deleting the task on
success, and running the shared failure bookkeeping on a failed attempt
(a payload that fails to parse lands in the same catch with status 0 and
no HTTP attempt). -/
def processRetryTask (hmac : String → String → String) (now : Int)
    (http : Nat → HttpOutcome) (db : Db) (t : WebhookRetry) :
    Db × Option SentRequest × RetryResult :=
  match findWebhook db t.webhookId with
  | none => ({ db with retries := removeRetry t.id db.retries }, none, .inactive t.id)
  | some w =>
    if w.isActive then
      match parseJson t.payload with
      | none =>
        let p := retryFailure now db t 0 "SyntaxError"
        (p.1, none, p.2)
      | some pj =>
        let req : SentRequest :=
          { webhookId := w.id
            taskId := some t.id
            url := w.url
            body := stringifyJ pj
            signature := hmac w.secret t.payload
            eventHeader := fieldStr pj "event"
            deliveryHeader := fieldStr pj "id"
            retryCountHeader := some t.retryCount }
        match http t.id with
        | .ok st txt =>
          ({ db with
              deliveries := db.deliveries ++
                [{ webhookId := w.id, deliveryId := fieldStr pj "id", success := true,
                   statusCode := st, statusText := txt }]
              retries := removeRetry t.id db.retries }, some req, .ok t.id st)
        | .fail resp msg =>
          let p := retryFailure now db t (errStatus resp) (errText resp msg)
          (p.1, some req, p.2)
    else ({ db with retries := removeRetry t.id db.retries }, none, .inactive t.id)

/-- Fold `processRetryTask` over the due tasks. -/
def runRetries (hmac : String → String → String) (now : Int)
    (http : Nat → HttpOutcome) :
    Db → List WebhookRetry → Db × List SentRequest × List RetryResult
  | db, [] => (db, [], [])
  | db, t :: ts =>
    let x := processRetryTask hmac now http db t
    let rest := runRetries hmac now http x.1 ts
    (rest.1,
     (match x.2.1 with
      | none => rest.2.1
      | some r => r :: rest.2.1), x.2.2 :: rest.2.2)

/-- The `findMany` filter of `processRetryQueue`: due and under the retry
ceiling. -/
def dueTasks (db : Db) (now : Int) : List WebhookRetry :=
  db.retries.filter (fun t => decide (t.nextRetryAt ≤ now) && decide (t.retryCount < 5))

/-- The summary `processRetryQueue` returns. -/
structure RetrySummary where
  success : Bool
  count : Nat
  results : List RetryResult
deriving DecidableEq

/-- `WebhookService.processRetryQueue`: load the due tasks and process
each one. -/
def processRetryQueue (hmac : String → String → String) (db : Db) (now : Int)
    (http : Nat → HttpOutcome) : RetrySummary × Db × List SentRequest :=
  let due := dueTasks db now
  if due.isEmpty then ({ success := true, count := 0, results := [] }, db, [])
  else
    let r := runRetries hmac now http db due
    ({ success := true, count := due.length, results := r.2.2 }, r.1, r.2.1)

/-- Lookup of a retry task row by id. -/
def findRetry (db : Db) (tid : Nat) : Option WebhookRetry :=
  db.retries.find? (fun t => t.id == tid)

/-- Concrete stand-in for the hex HMAC-SHA256: secret and message joined
by a separator.  Like the real MAC it is a deterministic function of
exactly (secret, serialized body). -/
def hmacModel : String → String → String := fun secret msg => secret ++ "#" ++ msg

/-- An active subscription to two event types. -/
def wh1 : Webhook :=
  { id := 1
    url := "https://example.com/hook"
    events := ["document.created", "document.completed"]
    secret := "s3cret"
    isActive := true
    teamId := none }

/-- A second active subscription to the same event. -/
def wh2 : Webhook :=
  { wh1 with id := 2, url := "https://example.org/wh", secret := "other" }

/-- A deactivated subscription. -/
def whOff : Webhook := { wh1 with id := 3, isActive := false }

/-- A sample `data` record with nested values and an escapable string. -/
def dataSample : Jval :=
  .jobj (.ocons "documentId" (.jnum 7)
    (.ocons "title" (.jstr "NDA \"final\" v2\\1")
      (.ocons "tags" (.jarr (.acons (.jstr "b2b") (.acons (.jnum (-3)) .anil)))
        .onil)))

/-- The serialized envelope stored for `task1`. -/
def payload1 : String :=
  stringifyJ (payloadJ "wh_abc123" "document.created" "2024-05-01T10:00:00.000Z" dataSample)

/-- A due retry task at count 0 owned by `wh1`. -/
def task1 : WebhookRetry :=
  { id := 10
    webhookId := 1
    payload := payload1
    retryCount := 0
    nextRetryAt := 0
    lastError := none }

/-- A due task owned by the deactivated subscription. -/
def taskOff : WebhookRetry := { task1 with id := 11, webhookId := 3 }

/-- A due task whose subscription row is gone. -/
def taskGone : WebhookRetry := { task1 with id := 12, webhookId := 99 }

/-- A due task at the last retry count. -/
def task4 : WebhookRetry := { task1 with id := 13, retryCount := 4 }

/-- A store with one active and one inactive subscription and no pending
work. -/
def db0 : Db := { webhooks := [wh1, whOff], deliveries := [], retries := [], nextRetryId := 20 }

/-- The store with every fixture task pending. -/
def dbR : Db := { db0 with retries := [task1, taskOff, taskGone, task4] }

/-- An oracle that rejects every POST with HTTP 503. -/
def http503 : Nat → HttpOutcome := fun _ => .fail (some (503, "Service Unavailable")) "Request failed"

/-- An oracle that rejects every POST with HTTP 404 (terminal). -/
def http404 : Nat → HttpOutcome := fun _ => .fail (some (404, "Not Found")) "Request failed"

/-- An oracle that resolves every POST with HTTP 200. -/
def http200 : Nat → HttpOutcome := fun _ => .ok 200 "OK"

/-- An oracle with no HTTP response at all (network failure). -/
def httpDown : Nat → HttpOutcome := fun _ => .fail none "connect ECONNREFUSED"

/-- A store with a single due retry task whose stored payload is the
serialized envelope `payload1`. -/
def dbC8 : Db := { db0 with retries := [task1] }

/-- The POST `processRetryQueue` sends for `task1`: the body is the
re-serialized stored payload and the signature is keyed with the owning
subscription's secret. -/
def c8req : SentRequest :=
  { webhookId := 1
    taskId := some 10
    url := "https://example.com/hook"
    body := payload1
    signature := hmacModel "s3cret" payload1
    eventHeader := "document.created"
    deliveryHeader := "wh_abc123"
    retryCountHeader := some 0 }

end WS

namespace JsStr

theorem parseLit_append (lit r : List Char) : parseLit lit (lit ++ r) = some r := by
  induction lit with
  | nil => rfl
  | cons c cs ih => simp [parseLit, ih]

theorem parseLit_ne {c d : Char} (h : ¬ d = c) (cs ds : List Char) :
    parseLit (c :: cs) (d :: ds) = none := by
  simp [parseLit]
  intro hcd
  exact absurd hcd.symm h

theorem isDig_dCh {d : Nat} (h : d < 10) : isDig (dCh d) = true := by
  interval_cases d <;> decide

theorem toNat_dCh {d : Nat} (h : d < 10) : (dCh d).toNat = 48 + d := by
  interval_cases d <;> decide

theorem natLAux_digits : ∀ (fuel n : Nat), ∀ c ∈ natLAux fuel n, isDig c = true := by
  intro fuel
  induction fuel with
  | zero => intro n c hc; simp [natLAux] at hc
  | succ f ih =>
    intro n c hc
    by_cases h0 : n = 0
    · simp [natLAux, h0] at hc
    · simp only [natLAux, if_neg h0, List.mem_append, List.mem_singleton] at hc
      rcases hc with hc | hc
      · exact ih _ _ hc
      · exact hc ▸ isDig_dCh (Nat.mod_lt _ (by norm_num))

theorem natL_digits (n : Nat) : ∀ c ∈ natL n, isDig c = true := by
  intro c hc
  by_cases h0 : n = 0
  · simp [natL, h0] at hc
    exact hc ▸ (by decide)
  · simp only [natL, if_neg h0] at hc
    exact natLAux_digits _ _ c hc

theorem natL_ne_nil (n : Nat) : natL n ≠ [] := by
  by_cases h0 : n = 0
  · simp [natL, h0]
  · simp only [natL, if_neg h0, natLAux]
    simp [h0]

theorem takeWhile_isDig_append :
    ∀ (xs rest : List Char), (∀ x ∈ xs, isDig x = true) → headNotDig rest = true →
      (xs ++ rest).takeWhile isDig = xs ∧ (xs ++ rest).dropWhile isDig = rest := by
  intro xs
  induction xs with
  | nil =>
    intro rest _ hrest
    cases rest with
    | nil => simp
    | cons c r =>
      simp only [headNotDig, Bool.not_eq_true'] at hrest
      simp [List.takeWhile, List.dropWhile, hrest]
  | cons x xs ih =>
    intro rest hxs hrest
    have hx : isDig x = true := hxs x (List.mem_cons_self x xs)
    have hrec := ih rest (fun c hc => hxs c (List.mem_cons_of_mem x hc)) hrest
    simp [List.takeWhile, List.dropWhile, hx, hrec.1, hrec.2]

theorem natVal_append (xs : List Char) (c : Char) :
    natVal (xs ++ [c]) = 10 * natVal xs + (c.toNat - 48) := by
  simp [natVal, List.foldl_append]

theorem natVal_natLAux : ∀ (fuel n : Nat), n ≤ fuel → natVal (natLAux fuel n) = n := by
  intro fuel
  induction fuel with
  | zero =>
    intro n h
    interval_cases n
    rfl
  | succ f ih =>
    intro n h
    by_cases h0 : n = 0
    · simp [natLAux, h0, natVal]
    · have hdiv : n / 10 ≤ f := by
        have := Nat.div_lt_self (Nat.pos_of_ne_zero h0) (by norm_num : 1 < 10)
        omega
      have hmod : n % 10 < 10 := Nat.mod_lt _ (by norm_num)
      simp only [natLAux, if_neg h0]
      rw [natVal_append, ih _ hdiv, toNat_dCh hmod]
      have := Nat.div_add_mod n 10
      omega

theorem natVal_natL (n : Nat) : natVal (natL n) = n := by
  by_cases h0 : n = 0
  · subst h0; decide
  · simp only [natL, if_neg h0]
    exact natVal_natLAux _ _ (Nat.le_succ n)

theorem parseNat_append (n : Nat) (rest : List Char) (h : headNotDig rest = true) :
    parseNat (natL n ++ rest) = some (n, rest) := by
  have htk := takeWhile_isDig_append (natL n) rest (fun c hc => natL_digits n c hc) h
  unfold parseNat
  rw [htk.1, htk.2]
  simp [List.isEmpty_iff, natL_ne_nil n, natVal_natL]

theorem parseInt_append (i : Int) (rest : List Char) (h : headNotDig rest = true) :
    parseInt (intL i ++ rest) = some (i, rest) := by
  by_cases hneg : i < 0
  · simp only [intL, if_pos hneg, List.cons_append]
    simp only [parseInt, parseNat_append _ _ h]
    have habs : ((i.natAbs : Nat) : Int) = -i := Int.ofNat_natAbs_of_nonpos (le_of_lt hneg)
    simp [habs]
  · simp only [intL, if_neg hneg]
    obtain ⟨c, cs, hc, hdig⟩ : ∃ c cs, natL i.natAbs = c :: cs ∧ isDig c = true := by
      cases hnl : natL i.natAbs with
      | nil => exact absurd hnl (natL_ne_nil _)
      | cons c cs =>
        refine ⟨c, cs, rfl, natL_digits i.natAbs c ?_⟩
        rw [hnl]
        exact List.mem_cons_self c cs
    have hcm : ¬ (c = '-') := by
      intro he
      rw [he] at hdig
      exact absurd hdig (by decide)
    rw [hc, List.cons_append]
    simp only [parseInt, if_neg hcm]
    rw [show c :: (cs ++ rest) = (c :: cs) ++ rest from rfl, ← hc, parseNat_append _ _ h]
    simp only [Option.map_some']
    have : ((i.natAbs : Nat) : Int) = i := by omega
    rw [this]

theorem unesc_cons_quote (r : List Char) : unesc ('"' :: r) = some ([], r) := by
  rw [unesc.eq_def]
  simp

theorem unesc_cons_esc (d : Char) (r2 : List Char) :
    unesc ('\\' :: d :: r2) = (unesc r2).map (fun p => (d :: p.1, p.2)) := by
  rw [unesc.eq_def]
  simp

theorem unesc_cons_plain {c : Char} (h1 : ¬ c = '"') (h2 : ¬ c = '\\') (r : List Char) :
    unesc (c :: r) = (unesc r).map (fun p => (c :: p.1, p.2)) := by
  rw [unesc.eq_def]
  simp [h1, h2]

theorem unesc_append : ∀ (a r : List Char), unesc (escL a ++ ('"' :: r)) = some (a, r) := by
  intro a
  induction a with
  | nil => intro r; simp [escL, unesc_cons_quote]
  | cons c cs ih =>
    intro r
    by_cases h1 : c = '"'
    · have hesc : escC c = ['\\', c] := by simp [escC, h1]
      simp only [escL, hesc, List.cons_append, List.nil_append]
      rw [unesc_cons_esc, ih r]
      rfl
    · by_cases h2 : c = '\\'
      · have hesc : escC c = ['\\', c] := by simp [escC, h1, h2]
        simp only [escL, hesc, List.cons_append, List.nil_append]
        rw [unesc_cons_esc, ih r]
        rfl
      · have hesc : escC c = [c] := by simp [escC, h1, h2]
        simp only [escL, hesc, List.cons_append, List.nil_append]
        rw [unesc_cons_plain h1 h2, ih r]
        rfl

theorem parseStr_append (s : String) (r : List Char) :
    parseStr (strL s ++ r) = some (s.toList, r) := by
  simp only [strL, List.cons_append, List.append_assoc, List.singleton_append]
  simp [parseStr, unesc_append]

theorem mk_toList (s : String) : String.mk s.toList = s := rfl

theorem parseStrS_append (s : String) (r : List Char) :
    parseStrS (strL s ++ r) = some (s, r) := by
  simp [parseStrS, parseStr_append, mk_toList]

theorem intL_head (i : Int) : ∃ c cs, intL i = c :: cs ∧ (c = '-' ∨ isDig c = true) := by
  by_cases hneg : i < 0
  · exact ⟨'-', natL i.natAbs, by simp [intL, hneg], Or.inl rfl⟩
  · obtain ⟨c, cs, hc⟩ : ∃ c cs, natL i.natAbs = c :: cs := by
      cases hnl : natL i.natAbs with
      | nil => exact absurd hnl (natL_ne_nil _)
      | cons c cs => exact ⟨c, cs, rfl⟩
    refine ⟨c, cs, by simp [intL, hneg, hc], Or.inr (natL_digits i.natAbs c ?_)⟩
    rw [hc]
    exact List.mem_cons_self c cs

theorem parseOptInt_append (o : Option Int) (rest : List Char) (h : headNotDig rest = true) :
    parseOptInt (optIntL o ++ rest) = some (o, rest) := by
  cases o with
  | none => simp only [optIntL, parseOptInt, parseLit_append]
  | some i =>
    obtain ⟨c, cs, hc, hd⟩ := intL_head i
    have hcn : ¬ (c = 'n') := by
      rcases hd with hd | hd
      · rw [hd]; decide
      · intro he
        rw [he] at hd
        exact absurd hd (by decide)
    simp only [optIntL, parseOptInt]
    rw [hc, List.cons_append, show nullL = 'n' :: ['u', 'l', 'l'] from rfl,
      parseLit_ne hcn, ← List.cons_append, ← hc, parseInt_append _ _ h]
    rfl

theorem parseOptStr_append (o : Option String) (rest : List Char) :
    parseOptStr (optStrL o ++ rest) = some (o, rest) := by
  cases o with
  | none => simp only [optStrL, parseOptStr, parseLit_append]
  | some s =>
    have hcn : ¬ (('"' : Char) = 'n') := by decide
    simp only [optStrL, parseOptStr, strL, List.cons_append]
    rw [show nullL = 'n' :: ['u', 'l', 'l'] from rfl, parseLit_ne hcn]
    have := parseStr_append s rest
    simp only [strL, List.cons_append] at this
    rw [this]
    simp [mk_toList]

theorem parseKey_append (ks : List Char) (p : List Char → Option (α × List Char))
    (s : List Char) : parseKey ks p (ks ++ s) = p s := by
  simp [parseKey, parseLit_append]

end JsStr

namespace JsStr

theorem parseLit_single (c : Char) (r : List Char) : parseLit [c] (c :: r) = some r := by
  simp [parseLit]

end JsStr

namespace AuditTrail

open JsStr

theorem parseVF1_append (d : Int) (u rc : Option Int) (rest : List Char)
    (h : headNotDig rest = true) :
    parseVF1 (kDoc ++ (intL d ++ (kUser ++ (optIntL u ++ (kRec ++ (optIntL rc ++ rest))))))
      = some ((d, u, rc), rest) := by
  have h1 : headNotDig (kUser ++ (optIntL u ++ (kRec ++ (optIntL rc ++ rest)))) = true := rfl
  have h2 : headNotDig (kRec ++ (optIntL rc ++ rest)) = true := rfl
  simp only [parseVF1, parseKey_append, parseInt_append _ _ h1, parseOptInt_append _ _ h2,
    parseOptInt_append _ _ h, Option.bind_eq_bind, Option.some_bind]

theorem parseVF2_append (t : String) (dta : Option String) (ts : String) (rest : List Char) :
    parseVF2 (kEvt ++ (strL t ++ (kData ++ (optStrL dta ++ (kTime ++ (strL ts ++ rest))))))
      = some ((t, dta, ts), rest) := by
  simp only [parseVF2, parseKey_append, parseStrS_append, parseOptStr_append,
    Option.bind_eq_bind, Option.some_bind]

theorem parseVF3_append (ipv uav : Option String) (pv : String) (rest : List Char) :
    parseVF3 (kIp ++ (optStrL ipv ++ (kUA ++ (optStrL uav ++ (kPrev ++ (strL pv ++ ('\x7d' :: rest)))))))
      = some ((ipv, uav, pv), rest) := by
  simp only [parseVF3, parseKey_append, parseOptStr_append, parseStrS_append,
    parseLit_single, Option.bind_eq_bind, Option.some_bind]

theorem parseVF_vfL (f : VerifyFields) : parseVF (vfL f) = some (f, []) := by
  have h1 : headNotDig (kEvt ++ (strL f.type ++ (kData ++ (optStrL f.data ++
      (kTime ++ (strL f.createdAt ++ (kIp ++ (optStrL f.ip ++ (kUA ++ (optStrL f.userAgent ++
      (kPrev ++ (strL f.prev ++ ['\x7d'])))))))))))) = true := rfl
  simp only [parseVF, vfL, parseVF1_append _ _ _ _ h1, parseVF2_append, parseVF3_append,
    Option.bind_eq_bind, Option.some_bind]

theorem vfL_inj {f g : VerifyFields} (h : vfL f = vfL g) : f = g := by
  have hf := parseVF_vfL f
  rw [h, parseVF_vfL g] at hf
  exact ((Prod.mk.injEq _ _ _ _).mp (Option.some.inj hf)).1.symm

theorem serializeVerify_inj {l l' : StoredLog} {p p' : String}
    (h : serializeVerify l p = serializeVerify l' p') :
    fieldsOf l p = fieldsOf l' p' := by
  have hdata : vfL (fieldsOf l p) = vfL (fieldsOf l' p') := congrArg String.data h
  exact vfL_inj hdata

theorem sv_inj_fields {l l' : StoredLog} {p p' : String}
    (h : serializeVerify l p = serializeVerify l' p') :
    ({ l with hash := "" } : StoredLog) = { l' with hash := "" } ∧ p = p' := by
  have hf := serializeVerify_inj h
  cases l
  cases l'
  simp only [fieldsOf, VerifyFields.mk.injEq] at hf
  obtain ⟨h1, h2, h3, h4, h5, h6, h7, h8, h9⟩ := hf
  subst h1
  subst h2
  subst h3
  subst h4
  subst h5
  subst h6
  subst h7
  subst h8
  exact ⟨rfl, h9⟩

theorem storedLog_eq_of {a b : StoredLog}
    (h1 : ({ a with hash := "" } : StoredLog) = { b with hash := "" })
    (h2 : a.hash = b.hash) : a = b := by
  cases a
  cases b
  simp only [StoredLog.mk.injEq] at h1 ⊢
  simp_all

theorem verifyFrom_take (hash : String → String) :
    ∀ (logs : List StoredLog) (p : String) (k : Nat),
      verifyFrom hash p logs = true → verifyFrom hash p (logs.take k) = true := by
  intro logs
  induction logs with
  | nil =>
    intro p k h
    simp [verifyFrom]
  | cons l ls ih =>
    intro p k h
    cases k with
    | zero => simp [verifyFrom]
    | succ k =>
      rw [List.take_succ_cons]
      by_cases hc : l.hash = hash (serializeVerify l p)
      · simp only [verifyFrom, if_pos hc] at h ⊢
        exact ih l.hash k h
      · simp only [verifyFrom, if_neg hc] at h
        exact absurd h (by simp)

/-- C10: tail truncation is undetectable — whenever verification accepts a
stored trail it also accepts every prefix of it, because the walk of
`verifyAuditTrailIntegrity` checks each entry only against its
predecessors; removing a suffix removes checks and changes nothing else. -/
theorem audit_truncation_undetectable (hash : String → String) (logs : List StoredLog)
    (k : Nat) (hvalid : (readTrail hash logs).2 = true) :
    (readTrail hash (logs.take k)).2 = true :=
  verifyFrom_take hash logs "" k hvalid

/-- Witness for C10 at a concrete two-entry valid trail and its one-entry
prefix, with the identity stand-in digest. -/
theorem audit_truncation_undetectable_witness :
    (readTrail idDigest (c10Trail.take 1)).2 = true :=
  audit_truncation_undetectable idDigest c10Trail 1 (by decide)

/-- C1 is violated by the code: `logDocumentEvent` hashes the app-side
`new Date()` ISO string, but the row's `createdAt` is assigned by the
database (`@default(now())`) and the hashed timestamp is never stored, so
`verifyAuditTrailIntegrity` rehashes a different serialization and the
trail of a single untampered append already reads as invalid whenever the
two clocks differ (here by 42 ms), for every injective digest. -/
theorem audit_roundtrip_rejects_untampered (hash : String → String)
    (hinj : Function.Injective hash) :
    (readTrail hash (runAppends hash c1Calls)).2 = false := by
  have hv : serializeVerify (appendLog hash none c1Input c1AppTime c1DbTime) ""
      = serializeVerify c1Stored0 "" := rfl
  have hne : serializeAppend c1Input c1AppTime "" ≠ serializeVerify c1Stored0 "" := by
    decide
  show verifyFrom hash "" (runAppends hash c1Calls) = false
  have ht : runAppends hash c1Calls = [appendLog hash none c1Input c1AppTime c1DbTime] := rfl
  rw [ht]
  have hcond : ¬ ((appendLog hash none c1Input c1AppTime c1DbTime).hash
      = hash (serializeVerify (appendLog hash none c1Input c1AppTime c1DbTime) "")) := by
    intro heq
    have hsa : (appendLog hash none c1Input c1AppTime c1DbTime).hash
        = hash (serializeAppend c1Input c1AppTime "") := rfl
    rw [hsa, hv] at heq
    exact hne (hinj heq)
  simp only [verifyFrom, if_neg hcond]

/-- C1 witness: the violation evaluated at the identity stand-in digest. -/
theorem audit_roundtrip_rejects_untampered_witness :
    (readTrail idDigest (runAppends idDigest c1Calls)).2 = false :=
  audit_roundtrip_rejects_untampered idDigest (fun _ _ hab => hab)

/-- C3 is violated by the code: at append time `JSON.stringify` omits the
keys whose values are JS `undefined` (absent `userId`/`recipientId`/`ip`/
`userAgent`), while verification rereads those columns as `null` and
serializes `"key":null`, so the hash input differs and verification fails
even when the stored `createdAt` equals the hashed timestamp — the absent
field is not mapped to a stable sentinel. -/
theorem audit_undefined_not_sentinel (hash : String → String)
    (hinj : Function.Injective hash) :
    (readTrail hash (runAppends hash c3Calls)).2 = false := by
  have hv : serializeVerify (appendLog hash none c3Input c3Time c3Time) ""
      = serializeVerify c3Stored0 "" := rfl
  have hne : serializeAppend c3Input c3Time "" ≠ serializeVerify c3Stored0 "" := by
    decide
  show verifyFrom hash "" (runAppends hash c3Calls) = false
  have ht : runAppends hash c3Calls = [appendLog hash none c3Input c3Time c3Time] := rfl
  rw [ht]
  have hcond : ¬ ((appendLog hash none c3Input c3Time c3Time).hash
      = hash (serializeVerify (appendLog hash none c3Input c3Time c3Time) "")) := by
    intro heq
    have hsa : (appendLog hash none c3Input c3Time c3Time).hash
        = hash (serializeAppend c3Input c3Time "") := rfl
    rw [hsa, hv] at heq
    exact hne (hinj heq)
  simp only [verifyFrom, if_neg hcond]

/-- C3 witness: the violation evaluated at the identity stand-in digest. -/
theorem audit_undefined_not_sentinel_witness :
    (readTrail idDigest (runAppends idDigest c3Calls)).2 = false :=
  audit_undefined_not_sentinel idDigest (fun _ _ hab => hab)

theorem verifyFrom_set_tampered (hash : String → String) (hinj : Function.Injective hash) :
    ∀ (logs : List StoredLog) (p : String) (i : Nat) (e : StoredLog)
      (hi : i + 1 < logs.length),
      verifyFrom hash p logs = true →
      e ≠ logs.get ⟨i, Nat.lt_of_succ_lt hi⟩ →
      verifyFrom hash p (logs.set i e) = false := by
  intro logs
  induction logs with
  | nil =>
    intro p i e hi
    simp at hi
  | cons l ls ih =>
    intro p i e hi hval hne
    cases i with
    | zero =>
      cases ls with
      | nil => simp at hi
      | cons m ms =>
        by_cases hcl : l.hash = hash (serializeVerify l p)
        case neg =>
          simp only [verifyFrom, if_neg hcl] at hval
          exact absurd hval (by simp)
        simp only [verifyFrom, if_pos hcl] at hval
        simp only [List.set_cons_zero]
        by_cases hce : e.hash = hash (serializeVerify e p)
        · have hneq : e.hash ≠ l.hash := by
            intro hh
            apply hne
            have hhash : hash (serializeVerify e p) = hash (serializeVerify l p) :=
              hce.symm.trans (hh.trans hcl)
            have hsv : serializeVerify e p = serializeVerify l p := hinj hhash
            have hfe := sv_inj_fields hsv
            exact storedLog_eq_of hfe.1 hh
          by_cases hcm : m.hash = hash (serializeVerify m l.hash)
          case neg =>
            simp only [verifyFrom, if_neg hcm] at hval
            exact absurd hval (by simp)
          have hcm2 : ¬ (m.hash = hash (serializeVerify m e.hash)) := by
            intro hmm
            have hhash : hash (serializeVerify m l.hash) = hash (serializeVerify m e.hash) :=
              hcm.symm.trans hmm
            have := (sv_inj_fields (hinj hhash)).2
            exact hneq this.symm
          simp only [verifyFrom, if_pos hce, if_neg hcm2]
        · simp only [verifyFrom, if_neg hce]
    | succ i =>
      by_cases hcl : l.hash = hash (serializeVerify l p)
      case neg =>
        simp only [verifyFrom, if_neg hcl] at hval
        exact absurd hval (by simp)
      simp only [verifyFrom, if_pos hcl] at hval
      rw [List.set_cons_succ]
      simp only [verifyFrom, if_pos hcl]
      have hi2 : i + 1 < ls.length := by
        have := hi
        simp only [List.length_cons] at this
        omega
      have hne2 : e ≠ ls.get ⟨i, Nat.lt_of_succ_lt hi2⟩ := by
        intro he
        apply hne
        rw [he]
        rfl
      exact ih l.hash i e hi2 hval hne2

/-- C4 (amended): on any stored trail that verification currently accepts,
replacing any non-final entry by a different row (any stored field or the
stored digest changed) makes `verifyAuditTrailIntegrity` reject, provided
the digest function is collision-free on the serialized entries.  (The
claim's original form — quantifying over trails produced by appends — is
refuted by `audit_tamper_can_validate`: appended trails are generally
rejected already, and an edit can make one accepted.) -/
theorem audit_tamper_evident (hash : String → String) (hinj : Function.Injective hash)
    (logs : List StoredLog) (i : Nat) (e : StoredLog) (hi : i + 1 < logs.length)
    (hvalid : (readTrail hash logs).2 = true)
    (hne : e ≠ logs.get ⟨i, Nat.lt_of_succ_lt hi⟩) :
    (readTrail hash (logs.set i e)).2 = false :=
  verifyFrom_set_tampered hash hinj logs "" i e hi hvalid hne

/-- C4 witness: editing the stored `userId` of the first entry of a
concrete two-entry accepted trail makes verification reject. -/
theorem audit_tamper_evident_witness :
    (readTrail idDigest (c10Trail.set 0 c10TamperedHead)).2 = false :=
  audit_tamper_evident idDigest (fun _ _ hab => hab) c10Trail 0 c10TamperedHead
    (by decide) (by decide) (by decide)

/-- C4 counterexample to the claim as stated: a three-append trail whose
middle row was stamped 7 ms late by the database; editing that middle
row's stored `createdAt` back to the hashed timestamp is a change to a
stored field of a middle entry after which verification returns
`isValid = true` (the untampered trail is the one rejected). -/
theorem audit_tamper_can_validate :
    runAppends idDigest c4Calls = [c4s1, c4s2, c4s3] ∧
    c4Tampered = { c4s2 with createdAt := c4T2 } ∧
    c4Tampered ≠ c4s2 ∧
    (readTrail idDigest ((runAppends idDigest c4Calls).set 1 c4Tampered)).2 = true ∧
    (readTrail idDigest (runAppends idDigest c4Calls)).2 = false :=
  ⟨rfl, rfl, by decide, by decide, by decide⟩

end AuditTrail

namespace WireJson

open JsStr

theorem encV_null : encV .jnull = nullL := rfl

theorem encV_bool (b : Bool) :
    encV (.jbool b) = if b then ['t', 'r', 'u', 'e'] else ['f', 'a', 'l', 's', 'e'] := rfl

theorem encV_num (i : Int) : encV (.jnum i) = intL i := rfl

theorem encV_str (s : String) : encV (.jstr s) = strL s := rfl

theorem encV_arr (a : Jarr) : encV (.jarr a) = '[' :: (encA a ++ [']']) := rfl

theorem encV_obj (o : Jobj) : encV (.jobj o) = '\x7b' :: (encO o ++ ['\x7d']) := rfl

theorem encA_nil : encA .anil = [] := rfl

theorem encA_cons (v : Jval) (t : Jarr) : encA (.acons v t) = encV v ++ encATail t := rfl

theorem encATail_nil : encATail .anil = [] := rfl

theorem encATail_cons (v : Jval) (t : Jarr) :
    encATail (.acons v t) = ',' :: (encV v ++ encATail t) := rfl

theorem encO_nil : encO .onil = [] := rfl

theorem encO_cons (k : String) (v : Jval) (t : Jobj) :
    encO (.ocons k v t) = strL k ++ (':' :: encV v) ++ encOTail t := rfl

theorem encOTail_nil : encOTail .onil = [] := rfl

theorem encOTail_cons (k : String) (v : Jval) (t : Jobj) :
    encOTail (.ocons k v t) = ',' :: (strL k ++ (':' :: encV v) ++ encOTail t) := rfl

theorem szV_pos (v : Jval) : 1 ≤ szV v := by
  cases v <;> (simp only [szV]; omega)

theorem strL_len (s : String) : 2 ≤ (strL s).length := by
  simp [strL]

theorem intL_len_pos (i : Int) : 1 ≤ (intL i).length := by
  obtain ⟨c, cs, hc, _⟩ := intL_head i
  rw [hc]
  simp

mutual

theorem szV_le : ∀ v : Jval, szV v ≤ 2 * (encV v).length
  | .jnull => by simp [szV, encV_null, nullL]
  | .jbool b => by cases b <;> simp [szV, encV_bool]
  | .jnum i => by
    have := intL_len_pos i
    simp only [szV, encV_num]
    omega
  | .jstr s => by
    have := strL_len s
    simp only [szV, encV_str]
    omega
  | .jarr a => by
    have := szA_le a
    simp only [szV, encV_arr, List.length_cons, List.length_append, List.length_singleton]
    omega
  | .jobj o => by
    have := szO_le o
    simp only [szV, encV_obj, List.length_cons, List.length_append, List.length_singleton]
    omega

theorem szA_le : ∀ a : Jarr, szA a ≤ 2 * (encA a).length + 2
  | .anil => by simp [szA, encA_nil]
  | .acons v t => by
    have h1 := szV_le v
    have h2 := szA_le t
    cases t with
    | anil =>
      simp only [szA, encA_cons, encATail_nil, List.append_nil]
      omega
    | acons v2 t2 =>
      simp only [szA, encA_cons, encATail_cons, List.length_append, List.length_cons] at h2 ⊢
      omega

theorem szO_le : ∀ o : Jobj, szO o ≤ 2 * (encO o).length + 2
  | .onil => by simp [szO, encO_nil]
  | .ocons k v t => by
    have h1 := szV_le v
    have h2 := szO_le t
    have h3 := strL_len k
    cases t with
    | onil =>
      simp only [szO, encO_cons, encOTail_nil, List.append_nil, List.length_append,
        List.length_cons]
      omega
    | ocons k2 v2 t2 =>
      simp only [szO, encO_cons, encOTail_cons, List.length_append, List.length_cons] at h2 ⊢
      omega

end

theorem encV_head (v : Jval) :
    ∃ c r, encV v = c :: r ∧
      (c = 'n' ∨ c = 't' ∨ c = 'f' ∨ c = '"' ∨ c = '[' ∨ c = '\x7b' ∨ c = '-' ∨
        isDig c = true) := by
  cases v with
  | jnull => exact ⟨'n', ['u', 'l', 'l'], rfl, Or.inl rfl⟩
  | jbool b =>
    cases b with
    | false => exact ⟨'f', ['a', 'l', 's', 'e'], rfl, by tauto⟩
    | true => exact ⟨'t', ['r', 'u', 'e'], rfl, by tauto⟩
  | jnum i =>
    obtain ⟨c, cs, hc, hd⟩ := intL_head i
    refine ⟨c, cs, by rw [encV_num, hc], ?_⟩
    rcases hd with h | h
    · tauto
    · tauto
  | jstr s => exact ⟨'"', escL s.toList ++ ['"'], rfl, by tauto⟩
  | jarr a => exact ⟨'[', encA a ++ [']'], rfl, by tauto⟩
  | jobj o => exact ⟨'\x7b', encO o ++ ['\x7d'], rfl, by tauto⟩

theorem encV_append_ne (v : Jval) (X r2 : List Char) {b : Char}
    (hb : b = ']' ∨ b = '\x7d') : ¬ (encV v ++ X = b :: r2) := by
  intro he
  obtain ⟨c, r, hc, hd⟩ := encV_head v
  rw [hc, List.cons_append, List.cons.injEq] at he
  have hcb : c = b := he.1
  subst hcb
  rcases hb with hb | hb <;> subst hb <;>
    rcases hd with h | h | h | h | h | h | h | h <;> exact absurd h (by decide)

theorem headNotDig_encATail (t : Jarr) (rest : List Char) :
    headNotDig (encATail t ++ (']' :: rest)) = true := by
  cases t with
  | anil => rfl
  | acons v t2 => rfl

theorem headNotDig_encOTail (t : Jobj) (rest : List Char) :
    headNotDig (encOTail t ++ ('\x7d' :: rest)) = true := by
  cases t with
  | onil => rfl
  | ocons k v t2 => rfl

end WireJson

namespace WireJson

open JsStr

theorem parse_enc : ∀ n : Nat,
    (∀ (v : Jval) (rest : List Char), szV v ≤ n → headNotDig rest = true →
      parseV n (encV v ++ rest) = some (v, rest)) ∧
    (∀ (a : Jarr) (rest : List Char), szA a + 1 ≤ n → a ≠ .anil →
      parseAElems n (encA a ++ (']' :: rest)) = some (a, rest)) ∧
    (∀ (o : Jobj) (rest : List Char), szO o + 1 ≤ n → o ≠ .onil →
      parseOMems n (encO o ++ ('\x7d' :: rest)) = some (o, rest)) := by
  intro n
  induction n using Nat.strong_induction_on with
  | _ n ih =>
    cases n with
    | zero =>
      refine ⟨?_, ?_, ?_⟩
      · intro v rest hsz _
        have := szV_pos v
        omega
      · intro a rest hsz _
        omega
      · intro o rest hsz _
        omega
    | succ m =>
      have ihm := ih m (Nat.lt_succ_self m)
      refine ⟨?_, ?_, ?_⟩
      · intro v rest hsz hrest
        cases v with
        | jnull =>
          rw [encV_null, show nullL = 'n' :: ['u', 'l', 'l'] from rfl, List.cons_append]
          simp [parseV, parseLit]
        | jbool b =>
          cases b with
          | false =>
            rw [show encV (.jbool false) = 'f' :: ['a', 'l', 's', 'e'] from rfl,
              List.cons_append]
            simp [parseV, parseLit]
          | true =>
            rw [show encV (.jbool true) = 't' :: ['r', 'u', 'e'] from rfl, List.cons_append]
            simp [parseV, parseLit]
        | jnum i =>
          obtain ⟨c, cs, hc, hd⟩ := intL_head i
          have hni := parseInt_append i rest hrest
          have hne : (¬ c = 'n') ∧ (¬ c = 't') ∧ (¬ c = 'f') ∧ (¬ c = '"') ∧ (¬ c = '[') ∧
              (¬ c = '\x7b') := by
            rcases hd with h | h
            · subst h
              refine ⟨by decide, by decide, by decide, by decide, by decide, by decide⟩
            · refine ⟨?_, ?_, ?_, ?_, ?_, ?_⟩ <;> intro he <;> rw [he] at h <;>
                exact absurd h (by decide)
          rw [encV_num, hc, List.cons_append]
          simp only [parseV]
          rw [if_neg hne.1, if_neg hne.2.1, if_neg hne.2.2.1, if_neg hne.2.2.2.1,
            if_neg hne.2.2.2.2.1, if_neg hne.2.2.2.2.2]
          rw [← List.cons_append, ← hc, hni]
          rfl
        | jstr s =>
          rw [encV_str, show strL s = '"' :: (escL s.toList ++ ['"']) from rfl,
            List.cons_append, List.append_assoc, List.singleton_append]
          simp [parseV, unesc_append, mk_toList]
        | jarr a =>
          rw [encV_arr, List.cons_append, List.append_assoc, List.singleton_append]
          cases a with
          | anil =>
            rw [encA_nil, List.nil_append]
            simp [parseV]
          | acons v t =>
            have hA := ihm.2.1 (.acons v t) rest
              (by simp only [szV] at hsz; omega) (by intro h; cases h)
            simp only [parseV]
            simp only [eq_false (by decide : ¬ ('[' : Char) = 'n'),
              eq_false (by decide : ¬ ('[' : Char) = 't'),
              eq_false (by decide : ¬ ('[' : Char) = 'f'),
              eq_false (by decide : ¬ ('[' : Char) = '"'),
              eq_true (rfl : ('[' : Char) = '['), if_false, if_true]
            split
            · rename_i r2 heq
              rw [encA_cons, List.append_assoc] at heq
              exact absurd heq (encV_append_ne v _ _ (Or.inl rfl))
            · rw [hA]
              rfl
        | jobj o =>
          rw [encV_obj, List.cons_append, List.append_assoc, List.singleton_append]
          cases o with
          | onil =>
            rw [encO_nil, List.nil_append]
            simp [parseV]
          | ocons k v t =>
            have hO := ihm.2.2 (.ocons k v t) rest
              (by simp only [szV] at hsz; omega) (by intro h; cases h)
            simp only [parseV]
            simp only [eq_false (by decide : ¬ ('\x7b' : Char) = 'n'),
              eq_false (by decide : ¬ ('\x7b' : Char) = 't'),
              eq_false (by decide : ¬ ('\x7b' : Char) = 'f'),
              eq_false (by decide : ¬ ('\x7b' : Char) = '"'),
              eq_false (by decide : ¬ ('\x7b' : Char) = '['),
              eq_true (rfl : ('\x7b' : Char) = '\x7b'), if_false, if_true]
            split
            · rename_i r2 heq
              rw [encO_cons] at heq
              rw [show strL k = '"' :: (escL k.toList ++ ['"']) from rfl] at heq
              simp only [List.append_assoc, List.cons_append, List.cons.injEq] at heq
              exact absurd heq.1 (by decide)
            · rw [hO]
              rfl
      · intro a rest hsz hne
        cases a with
        | anil => exact absurd rfl hne
        | acons v t =>
          have hsv : szV v ≤ m := by
            simp only [szA] at hsz
            have := szV_pos v
            omega
          have hv := ihm.1 v (encATail t ++ (']' :: rest)) hsv (headNotDig_encATail t rest)
          rw [encA_cons, List.append_assoc]
          simp only [parseAElems]
          rw [hv]
          simp only [Option.some_bind]
          cases t with
          | anil =>
            rw [encATail_nil, List.nil_append]
            rfl
          | acons v2 t2 =>
            have hA := ihm.2.1 (.acons v2 t2) rest
              (by simp only [szA] at hsz ⊢; have := szV_pos v; omega)
              (by intro h; cases h)
            rw [encATail_cons, List.cons_append]
            rw [show ((encV v2 ++ encATail t2) ++ (']' :: rest))
                = encA (.acons v2 t2) ++ (']' :: rest) from by rw [encA_cons]]
            simp only
            rw [hA]
            rfl
      · intro o rest hsz hne
        cases o with
        | onil => exact absurd rfl hne
        | ocons k v t =>
          have hsv : szV v ≤ m := by
            simp only [szO] at hsz
            have := szV_pos v
            omega
          have hv := ihm.1 v (encOTail t ++ ('\x7d' :: rest)) hsv (headNotDig_encOTail t rest)
          have hk := parseStr_append k (':' :: (encV v ++ (encOTail t ++ ('\x7d' :: rest))))
          rw [encO_cons]
          rw [List.append_assoc, List.append_assoc, List.cons_append]
          simp only [parseOMems]
          rw [hk]
          simp only [Option.some_bind, hv]
          cases t with
          | onil =>
            simp only [encOTail_nil, List.nil_append]
            simp [mk_toList]
          | ocons k2 v2 t2 =>
            have hO := ihm.2.2 (.ocons k2 v2 t2) rest
              (by simp only [szO] at hsz ⊢; have := szV_pos v; omega)
              (by intro h; cases h)
            simp only [encOTail_cons, List.cons_append]
            rw [show ((strL k2 ++ (':' :: encV v2) ++ encOTail t2) ++ ('\x7d' :: rest))
                = encO (.ocons k2 v2 t2) ++ ('\x7d' :: rest) from by rw [encO_cons]]
            rw [hO]
            simp [mk_toList]

theorem parseJson_stringifyJ (v : Jval) : parseJson (stringifyJ v) = some v := by
  have hfuel : szV v ≤ 2 * (encV v).length + 2 := le_trans (szV_le v) (by omega)
  have h := (parse_enc (2 * (encV v).length + 2)).1 v [] hfuel rfl
  rw [List.append_nil] at h
  unfold parseJson stringifyJ
  rw [show (String.mk (encV v)).length = (encV v).length from rfl,
    show (String.mk (encV v)).toList = encV v from rfl, h]

end WireJson

namespace WS

theorem runTrigger_results_length (hmac : String → String → String)
    (event payloadId body : String) (now : Int) (http : Nat → HttpOutcome) :
    ∀ (ws : List Webhook) (db : Db),
      ((runTrigger hmac event payloadId body now http db ws).2.2).length = ws.length := by
  intro ws
  induction ws with
  | nil => intro db; rfl
  | cons w ws ih =>
    intro db
    simp only [runTrigger, List.length_cons, ih]

/-- C7: `triggerWebhooks` never propagates a delivery failure — the
returned summary has `success = true` for every input and one outcome per
matched subscription, and when no active subscription matches the event it
returns `count = 0` with the store untouched and no HTTP request made. -/
theorem trigger_captures_failures (hmac : String → String → String) (db : Db)
    (event : String) (data : WireJson.Jval) (teamId : Option Int)
    (payloadId nowIso : String) (now : Int) (http : Nat → HttpOutcome) :
    (triggerWebhooks hmac db event data teamId payloadId nowIso now http).1.success = true ∧
    (triggerWebhooks hmac db event data teamId payloadId nowIso now http).1.results.length
      = (triggerWebhooks hmac db event data teamId payloadId nowIso now http).1.count ∧
    (db.webhooks.filter (matchesEvent event teamId) = [] →
      (triggerWebhooks hmac db event data teamId payloadId nowIso now http).1.count = 0 ∧
      (triggerWebhooks hmac db event data teamId payloadId nowIso now http).2.1 = db ∧
      (triggerWebhooks hmac db event data teamId payloadId nowIso now http).2.2 = []) := by
  by_cases hm : (db.webhooks.filter (matchesEvent event teamId)).isEmpty = true
  · simp [triggerWebhooks, hm]
  · refine ⟨?_, ?_, ?_⟩
    · simp [triggerWebhooks, hm]
    · simp [triggerWebhooks, hm, runTrigger_results_length]
    · intro hnil
      rw [hnil] at hm
      exact absurd rfl hm

/-- C7 witness: a dispatch with no matching subscription. -/
theorem trigger_captures_failures_witness :
    (triggerWebhooks hmacModel db0 "recipient.viewed" dataSample none "wh_z" "t" 0
        http200).1.success = true ∧
    (triggerWebhooks hmacModel db0 "recipient.viewed" dataSample none "wh_z" "t" 0
        http200).2.1 = db0 :=
  ⟨(trigger_captures_failures hmacModel db0 "recipient.viewed" dataSample none "wh_z" "t" 0
      http200).1,
   ((trigger_captures_failures hmacModel db0 "recipient.viewed" dataSample none "wh_z" "t" 0
      http200).2.2 (by decide)).2.1⟩

/-- C2 is violated by the code: a failed retry attempt writes no
`WebhookDelivery` row — the catch block of `processRetryQueue` carries the
comment "Log the failed webhook delivery" but never calls
`logWebhookDelivery`.  Here one due task is attempted (one HTTP request is
sent, answered with 503) yet the delivery table stays empty, while the
same failure on the initial dispatch path does create its record. -/
theorem retry_failure_writes_no_delivery :
    (processRetryQueue hmacModel { db0 with retries := [task1] } 5 http503).2.2.length = 1 ∧
    (processRetryQueue hmacModel { db0 with retries := [task1] } 5 http503).2.1.deliveries
      = [] ∧
    (triggerWebhooks hmacModel db0 "document.created" dataSample none "wh_z" "t" 0
        http503).2.1.deliveries.length = 1 :=
  ⟨by decide, by decide, by decide⟩

/-- C6: the retry classification.  `shouldRetry` holds exactly for no
response (status 0), 5xx, 429 and 408; a `WebhookRetry` task is created
after a failed initial delivery if and only if the failure is retryable;
and, below the attempt ceiling, the same classification decides whether a
failed retry keeps (updates) or deletes the task. -/
theorem retry_classification :
    (∀ sc : Nat, shouldRetry sc = true ↔ (sc = 0 ∨ 500 ≤ sc ∨ sc = 429 ∨ sc = 408)) ∧
    (∀ (hmac : String → String → String) (event payloadId body : String) (now : Int)
      (http : Nat → HttpOutcome) (db : Db) (w : Webhook) (resp : Option (Nat × String))
      (msg : String), http w.id = .fail resp msg →
      (triggerStep hmac event payloadId body now http db w).1.retries
        = (if shouldRetry (errStatus resp)
           then db.retries ++
             [{ id := db.nextRetryId, webhookId := w.id, payload := body, retryCount := 0,
                nextRetryAt := calculateNextRetryTime 0 now, lastError := none }]
           else db.retries)) ∧
    (∀ (hmac : String → String → String) (event payloadId body : String) (now : Int)
      (http : Nat → HttpOutcome) (db : Db) (w : Webhook) (st : Nat) (txt : String),
      http w.id = .ok st txt →
      (triggerStep hmac event payloadId body now http db w).1.retries = db.retries) ∧
    (∀ (now : Int) (db : Db) (t : WebhookRetry) (sc : Nat) (txt : String),
      t.retryCount + 1 < 5 →
      (shouldRetry sc = true →
        (retryFailure now db t sc txt).1.retries
          = updateRetry t.id (fun u =>
              { u with retryCount := t.retryCount + 1,
                       nextRetryAt := calculateNextRetryTime (t.retryCount + 1) now,
                       lastError := some txt }) db.retries) ∧
      (shouldRetry sc = false →
        (retryFailure now db t sc txt).1.retries = removeRetry t.id db.retries)) := by
  refine ⟨?_, ?_, ?_, ?_⟩
  · intro sc
    simp only [shouldRetry, Bool.or_eq_true, beq_iff_eq, decide_eq_true_eq]
    omega
  · intro hmac event payloadId body now http db w resp msg hhttp
    simp only [triggerStep, hhttp]
    by_cases hs : shouldRetry (errStatus resp) = true
    · simp [hs]
    · simp only [Bool.not_eq_true] at hs
      simp [hs]
  · intro hmac event payloadId body now http db w st txt hhttp
    simp only [triggerStep, hhttp]
  · intro now db t sc txt hcap
    constructor
    · intro hs
      simp only [retryFailure, hs, Bool.not_true, Bool.or_false,
        decide_eq_true_eq]
      rw [if_neg (by omega : ¬ 5 ≤ t.retryCount + 1)]
    · intro hs
      simp only [retryFailure, hs, Bool.not_false, Bool.or_true, if_true]

/-- C6 witness: HTTP 503 is retryable and creates a task on the initial
path; HTTP 404 is terminal and deletes an existing task on the retry
path. -/
theorem retry_classification_witness :
    shouldRetry 503 = true ∧
    (triggerStep hmacModel "document.created" "wh_z" "b" 0 http503 db0 wh1).1.retries.length
      = 1 ∧
    (retryFailure 5 { db0 with retries := [task1] } task1 404 "Not Found").1.retries = [] := by
  refine ⟨(retry_classification.1 503).mpr (by omega), ?_, ?_⟩
  · rw [retry_classification.2.1 hmacModel "document.created" "wh_z" "b" 0 http503 db0 wh1
      (some (503, "Service Unavailable")) "Request failed" rfl]
    decide
  · rw [(retry_classification.2.2.2 5 { db0 with retries := [task1] } task1 404
      "Not Found" (by decide)).2 (by decide)]
    decide

end WS

namespace WS

theorem find_removeRetry_ne (rs : List WebhookRetry) (tid i : Nat) (h : ¬ i = tid) :
    (removeRetry tid rs).find? (fun u => u.id == i) = rs.find? (fun u => u.id == i) := by
  induction rs with
  | nil => rfl
  | cons t rs ih =>
    rw [removeRetry, List.filter_cons]
    by_cases ht : t.id = tid
    · have hti : (t.id == i) = false := by
        simp only [beq_eq_false_iff_ne, ne_eq, ht]
        exact fun hh => h hh.symm
      rw [if_neg (by simp [ht] : ¬ ((!(t.id == tid)) = true))]
      rw [show rs.filter (fun u => !(u.id == tid)) = removeRetry tid rs from rfl, ih]
      simp only [List.find?_cons, hti]
    · have hti : (t.id == tid) = false := by simp [ht]
      rw [if_pos (by simp [ht] : ((!(t.id == tid)) = true))]
      rw [show (t :: rs.filter (fun u => !(u.id == tid)))
          = t :: removeRetry tid rs from rfl]
      simp only [List.find?_cons]
      cases hx : t.id == i with
      | true => rfl
      | false => exact ih

theorem find_removeRetry_self (rs : List WebhookRetry) (tid : Nat) :
    (removeRetry tid rs).find? (fun u => u.id == tid) = none := by
  induction rs with
  | nil => rfl
  | cons t rs ih =>
    rw [removeRetry, List.filter_cons]
    by_cases ht : t.id = tid
    · rw [if_neg (by simp [ht] : ¬ ((!(t.id == tid)) = true))]
      exact ih
    · have hti : (t.id == tid) = false := by simp [ht]
      rw [if_pos (by simp [ht] : ((!(t.id == tid)) = true))]
      rw [show (t :: rs.filter (fun u => !(u.id == tid)))
          = t :: removeRetry tid rs from rfl]
      simp only [List.find?_cons, hti]
      exact ih

theorem find_updateRetry_ne (rs : List WebhookRetry) (tid i : Nat)
    (f : WebhookRetry → WebhookRetry) (hf : ∀ u, (f u).id = u.id) (h : ¬ i = tid) :
    (updateRetry tid f rs).find? (fun u => u.id == i) = rs.find? (fun u => u.id == i) := by
  induction rs with
  | nil => rfl
  | cons t rs ih =>
    rw [updateRetry, List.map_cons]
    rw [show rs.map (fun u => if u.id = tid then f u else u) = updateRetry tid f rs from rfl]
    by_cases ht : t.id = tid
    · have h1 : ((f t).id == i) = false := by
        simp only [beq_eq_false_iff_ne, ne_eq, hf, ht]
        exact fun hh => h hh.symm
      have h2 : (t.id == i) = false := by
        simp only [beq_eq_false_iff_ne, ne_eq, ht]
        exact fun hh => h hh.symm
      rw [if_pos ht]
      simp only [List.find?_cons, h1, h2]
      exact ih
    · rw [if_neg ht]
      simp only [List.find?_cons]
      cases hx : t.id == i with
      | true => rfl
      | false => exact ih

theorem find_updateRetry_self (rs : List WebhookRetry) (tid : Nat)
    (f : WebhookRetry → WebhookRetry) (hf : ∀ u, (f u).id = u.id) :
    (updateRetry tid f rs).find? (fun u => u.id == tid)
      = (rs.find? (fun u => u.id == tid)).map f := by
  induction rs with
  | nil => rfl
  | cons t rs ih =>
    rw [updateRetry, List.map_cons]
    rw [show rs.map (fun u => if u.id = tid then f u else u) = updateRetry tid f rs from rfl]
    by_cases ht : t.id = tid
    · have h1 : ((f t).id == tid) = true := by simp [hf, ht]
      have h2 : (t.id == tid) = true := by simp [ht]
      rw [if_pos ht]
      simp only [List.find?_cons, h1, h2]
      rfl
    · have h1 : (t.id == tid) = false := by simp [ht]
      rw [if_neg ht]
      simp only [List.find?_cons, h1]
      exact ih

theorem find_of_mem_nodup (rs : List WebhookRetry) (t : WebhookRetry) (hmem : t ∈ rs)
    (hnd : (rs.map (fun u => u.id)).Nodup) : rs.find? (fun u => u.id == t.id) = some t := by
  induction rs with
  | nil => cases hmem
  | cons a rs ih =>
    rcases List.mem_cons.mp hmem with h | h
    · subst h
      simp only [List.find?_cons, beq_self_eq_true]
    · have hnotin : a.id ∉ rs.map (fun u => u.id) := (List.nodup_cons.mp hnd).1
      have hane : (a.id == t.id) = false := by
        simp only [beq_eq_false_iff_ne, ne_eq]
        intro he
        exact hnotin (he ▸ List.mem_map_of_mem (fun u => u.id) h)
      simp only [List.find?_cons, hane]
      exact ih h ((List.nodup_cons.mp hnd).2)


end WS

namespace WS

open WireJson

theorem processRetryTask_webhooks (hmac : String → String → String) (now : Int)
    (http : Nat → HttpOutcome) (db : Db) (t : WebhookRetry) :
    (processRetryTask hmac now http db t).1.webhooks = db.webhooks := by
  unfold processRetryTask
  cases hfw : findWebhook db t.webhookId with
  | none => rfl
  | some w =>
    by_cases hact : w.isActive = true
    · simp only [hact, if_true]
      cases hpj : parseJson t.payload with
      | none =>
        simp only [retryFailure]
        split
        · rfl
        · rfl
      | some pj =>
        cases hhttp : http t.id with
        | ok st txt => rfl
        | fail resp msg =>
          simp only [retryFailure]
          split
          · rfl
          · rfl
    · simp only [Bool.not_eq_true] at hact
      simp only [hact, Bool.false_eq_true, if_false]

theorem processRetryTask_find_ne (hmac : String → String → String) (now : Int)
    (http : Nat → HttpOutcome) (db : Db) (t : WebhookRetry) (i : Nat) (hne : ¬ i = t.id) :
    findRetry (processRetryTask hmac now http db t).1 i = findRetry db i := by
  unfold processRetryTask
  cases hfw : findWebhook db t.webhookId with
  | none => exact find_removeRetry_ne db.retries t.id i hne
  | some w =>
    by_cases hact : w.isActive = true
    · simp only [hact, if_true]
      cases hpj : parseJson t.payload with
      | none =>
        simp only [retryFailure]
        split
        · exact find_removeRetry_ne db.retries t.id i hne
        · exact find_updateRetry_ne db.retries t.id i _ (fun u => rfl) hne
      | some pj =>
        cases hhttp : http t.id with
        | ok st txt => exact find_removeRetry_ne db.retries t.id i hne
        | fail resp msg =>
          simp only [retryFailure]
          split
          · exact find_removeRetry_ne db.retries t.id i hne
          · exact find_updateRetry_ne db.retries t.id i _ (fun u => rfl) hne
    · simp only [Bool.not_eq_true] at hact
      simp only [hact, Bool.false_eq_true, if_false]
      exact find_removeRetry_ne db.retries t.id i hne

theorem processRetryTask_self_stable (hmac : String → String → String) (now : Int)
    (http : Nat → HttpOutcome) (db db2 : Db) (t : WebhookRetry)
    (hw : db2.webhooks = db.webhooks) (hf : findRetry db2 t.id = findRetry db t.id) :
    findRetry (processRetryTask hmac now http db2 t).1 t.id
      = findRetry (processRetryTask hmac now http db t).1 t.id := by
  have hfw2 : findWebhook db2 t.webhookId = findWebhook db t.webhookId := by
    unfold findWebhook
    rw [hw]
  unfold processRetryTask
  rw [hfw2]
  cases hfw : findWebhook db t.webhookId with
  | none =>
    show (removeRetry t.id db2.retries).find? _ = (removeRetry t.id db.retries).find? _
    rw [find_removeRetry_self, find_removeRetry_self]
  | some w =>
    by_cases hact : w.isActive = true
    · simp only [hact, if_true]
      cases hpj : parseJson t.payload with
      | none =>
        simp only [retryFailure]
        split
        · show (removeRetry t.id db2.retries).find? _ = (removeRetry t.id db.retries).find? _
          rw [find_removeRetry_self, find_removeRetry_self]
        · exact (find_updateRetry_self db2.retries t.id
              (fun u => { u with retryCount := t.retryCount + 1, nextRetryAt := calculateNextRetryTime (t.retryCount + 1) now, lastError := some "SyntaxError" })
              (fun u => rfl)).trans
            ((congrArg (Option.map _) hf).trans
              (find_updateRetry_self db.retries t.id
                (fun u => { u with retryCount := t.retryCount + 1, nextRetryAt := calculateNextRetryTime (t.retryCount + 1) now, lastError := some "SyntaxError" })
                (fun u => rfl)).symm)
      | some pj =>
        cases hhttp : http t.id with
        | ok st txt =>
          show (removeRetry t.id db2.retries).find? _ = (removeRetry t.id db.retries).find? _
          rw [find_removeRetry_self, find_removeRetry_self]
        | fail resp msg =>
          simp only [retryFailure]
          split
          · show (removeRetry t.id db2.retries).find? _
              = (removeRetry t.id db.retries).find? _
            rw [find_removeRetry_self, find_removeRetry_self]
          · exact (find_updateRetry_self db2.retries t.id
                (fun u => { u with retryCount := t.retryCount + 1, nextRetryAt := calculateNextRetryTime (t.retryCount + 1) now, lastError := some (errText resp msg) })
                (fun u => rfl)).trans
              ((congrArg (Option.map _) hf).trans
                (find_updateRetry_self db.retries t.id
                  (fun u => { u with retryCount := t.retryCount + 1, nextRetryAt := calculateNextRetryTime (t.retryCount + 1) now, lastError := some (errText resp msg) })
                  (fun u => rfl)).symm)
    · simp only [Bool.not_eq_true] at hact
      simp only [hact, Bool.false_eq_true, if_false]
      show (removeRetry t.id db2.retries).find? _ = (removeRetry t.id db.retries).find? _
      rw [find_removeRetry_self, find_removeRetry_self]

end WS

namespace WS

open WireJson

theorem processRetryTask_req_spec (hmac : String → String → String) (now : Int)
    (http : Nat → HttpOutcome) (db : Db) (t : WebhookRetry) (r : SentRequest)
    (hr : (processRetryTask hmac now http db t).2.1 = some r) :
    ∃ w pj, findWebhook db t.webhookId = some w ∧ w.isActive = true ∧
      parseJson t.payload = some pj ∧
      r = { webhookId := w.id, taskId := some t.id, url := w.url, body := stringifyJ pj,
            signature := hmac w.secret t.payload, eventHeader := fieldStr pj "event",
            deliveryHeader := fieldStr pj "id", retryCountHeader := some t.retryCount } := by
  unfold processRetryTask at hr
  cases hfw : findWebhook db t.webhookId with
  | none =>
    rw [hfw] at hr
    cases hr
  | some w =>
    rw [hfw] at hr
    by_cases hact : w.isActive = true
    · simp only [hact, if_true] at hr
      cases hpj : parseJson t.payload with
      | none =>
        rw [hpj] at hr
        cases hr
      | some pj =>
        rw [hpj] at hr
        refine ⟨w, pj, rfl, hact, rfl, ?_⟩
        cases hhttp : http t.id with
        | ok st txt =>
          rw [hhttp] at hr
          exact (Option.some.inj hr).symm
        | fail resp msg =>
          rw [hhttp] at hr
          exact (Option.some.inj hr).symm
    · simp only [Bool.not_eq_true] at hact
      simp only [hact, Bool.false_eq_true, if_false] at hr
      cases hr

theorem processRetryTask_inactive (hmac : String → String → String) (now : Int)
    (http : Nat → HttpOutcome) (db : Db) (t : WebhookRetry)
    (hveto : findWebhook db t.webhookId = none ∨
      ∃ w, findWebhook db t.webhookId = some w ∧ w.isActive = false) :
    processRetryTask hmac now http db t
      = ({ db with retries := removeRetry t.id db.retries }, none, .inactive t.id) := by
  rcases hveto with h | ⟨w, hw, hact⟩
  · unfold processRetryTask
    rw [h]
  · unfold processRetryTask
    rw [hw]
    simp only [hact, Bool.false_eq_true, if_false]

theorem runRetries_webhooks (hmac : String → String → String) (now : Int)
    (http : Nat → HttpOutcome) :
    ∀ (ts : List WebhookRetry) (db : Db),
      (runRetries hmac now http db ts).1.webhooks = db.webhooks := by
  intro ts
  induction ts with
  | nil => intro db; rfl
  | cons t ts ih =>
    intro db
    simp only [runRetries]
    rw [ih, processRetryTask_webhooks]

theorem runRetries_find_ne (hmac : String → String → String) (now : Int)
    (http : Nat → HttpOutcome) :
    ∀ (ts : List WebhookRetry) (db : Db) (i : Nat), (∀ u ∈ ts, ¬ i = u.id) →
      findRetry (runRetries hmac now http db ts).1 i = findRetry db i := by
  intro ts
  induction ts with
  | nil => intro db i _; rfl
  | cons t ts ih =>
    intro db i hall
    simp only [runRetries]
    rw [ih _ i (fun u hu => hall u (List.mem_cons_of_mem t hu)),
      processRetryTask_find_ne hmac now http db t i (hall t (List.mem_cons_self t ts))]

theorem runRetries_find_self (hmac : String → String → String) (now : Int)
    (http : Nat → HttpOutcome) :
    ∀ (ts : List WebhookRetry) (db db2 : Db) (t : WebhookRetry),
      t ∈ ts → ((ts.map (fun u => u.id)).Nodup) → db2.webhooks = db.webhooks →
      findRetry db2 t.id = findRetry db t.id →
      findRetry (runRetries hmac now http db2 ts).1 t.id
        = findRetry (processRetryTask hmac now http db t).1 t.id := by
  intro ts
  induction ts with
  | nil =>
    intro db db2 t hmem
    cases hmem
  | cons u ts ih =>
    intro db db2 t hmem hnd hw hf
    rcases List.mem_cons.mp hmem with h | h
    · subst h
      simp only [runRetries]
      have hids : ∀ x ∈ ts, ¬ t.id = x.id := by
        intro x hx he
        apply (List.nodup_cons.mp hnd).1
        show t.id ∈ List.map (fun u => u.id) ts
        rw [he]
        exact List.mem_map_of_mem (fun u => u.id) hx
      rw [runRetries_find_ne hmac now http ts _ t.id hids]
      exact processRetryTask_self_stable hmac now http db db2 t hw hf
    · have hune : ¬ t.id = u.id := by
        intro he
        apply (List.nodup_cons.mp hnd).1
        show u.id ∈ List.map (fun x => x.id) ts
        rw [← he]
        exact List.mem_map_of_mem (fun x => x.id) h
      simp only [runRetries]
      refine ih db (processRetryTask hmac now http db2 u).1 t h
        ((List.nodup_cons.mp hnd).2) ?_ ?_
      · rw [processRetryTask_webhooks, hw]
      · rw [processRetryTask_find_ne hmac now http db2 u t.id hune, hf]

theorem runRetries_req_attribution (hmac : String → String → String) (now : Int)
    (http : Nat → HttpOutcome) :
    ∀ (ts : List WebhookRetry) (db : Db) (r : SentRequest),
      r ∈ (runRetries hmac now http db ts).2.1 →
      ∃ u ∈ ts, ∃ db2 : Db, db2.webhooks = db.webhooks ∧
        (processRetryTask hmac now http db2 u).2.1 = some r := by
  intro ts
  induction ts with
  | nil =>
    intro db r hr
    cases hr
  | cons t ts ih =>
    intro db r hr
    simp only [runRetries] at hr
    cases hreq : (processRetryTask hmac now http db t).2.1 with
    | none =>
      rw [hreq] at hr
      obtain ⟨u, hu, db2, hwb, hx⟩ := ih _ r hr
      exact ⟨u, List.mem_cons_of_mem t hu, db2,
        by rw [hwb, processRetryTask_webhooks], hx⟩
    | some r0 =>
      rw [hreq] at hr
      rcases List.mem_cons.mp hr with h | h
      · exact ⟨t, List.mem_cons_self t ts, db, rfl, by rw [hreq, h]⟩
      · obtain ⟨u, hu, db2, hwb, hx⟩ := ih _ r h
        exact ⟨u, List.mem_cons_of_mem t hu, db2,
          by rw [hwb, processRetryTask_webhooks], hx⟩

end WS

namespace WS

open WireJson

theorem mem_dueTasks (db : Db) (now : Int) (t : WebhookRetry) (hmem : t ∈ db.retries)
    (hdue : t.nextRetryAt ≤ now) (hcnt : t.retryCount < 5) : t ∈ dueTasks db now := by
  unfold dueTasks
  refine List.mem_filter.mpr ⟨hmem, ?_⟩
  simp only [Bool.and_eq_true, decide_eq_true_eq]
  exact ⟨hdue, hcnt⟩

theorem dueTasks_sub (db : Db) (now : Int) (u : WebhookRetry) (hu : u ∈ dueTasks db now) :
    u ∈ db.retries := by
  unfold dueTasks at hu
  exact (List.mem_filter.mp hu).1

theorem dueTasks_retryCount_lt (db : Db) (now : Int) (u : WebhookRetry)
    (hu : u ∈ dueTasks db now) : u.retryCount < 5 := by
  unfold dueTasks at hu
  have hb := (List.mem_filter.mp hu).2
  simp only [Bool.and_eq_true, decide_eq_true_eq] at hb
  exact hb.2

theorem dueTasks_ids_nodup (db : Db) (now : Int)
    (hnd : (db.retries.map (fun u => u.id)).Nodup) :
    ((dueTasks db now).map (fun u => u.id)).Nodup := by
  exact List.Nodup.sublist ((List.filter_sublist db.retries).map (fun u => u.id)) hnd

theorem dueTasks_isEmpty_false (db : Db) (now : Int) (t : WebhookRetry)
    (ht : t ∈ dueTasks db now) : (dueTasks db now).isEmpty = false := by
  cases h : dueTasks db now with
  | nil =>
    rw [h] at ht
    cases ht
  | cons a l => rfl

theorem processRetryQueue_db (hmac : String → String → String) (db : Db) (now : Int)
    (http : Nat → HttpOutcome) (hne : (dueTasks db now).isEmpty = false) :
    (processRetryQueue hmac db now http).2.1
      = (runRetries hmac now http db (dueTasks db now)).1 := by
  simp only [processRetryQueue]
  rw [hne]
  rfl

theorem processRetryQueue_reqs (hmac : String → String → String) (db : Db) (now : Int)
    (http : Nat → HttpOutcome) (hne : (dueTasks db now).isEmpty = false) :
    (processRetryQueue hmac db now http).2.2
      = (runRetries hmac now http db (dueTasks db now)).2.1 := by
  simp only [processRetryQueue]
  rw [hne]
  rfl

theorem findWebhook_congr (db db2 : Db) (hw : db2.webhooks = db.webhooks) (wid : Nat) :
    findWebhook db2 wid = findWebhook db wid := by
  unfold findWebhook
  rw [hw]

theorem processRetryQueue_count_lt (hmac : String → String → String) (db : Db) (now : Int)
    (http : Nat → HttpOutcome) :
    ∀ r ∈ (processRetryQueue hmac db now http).2.2, ∀ k,
      r.retryCountHeader = some k → k < 5 := by
  intro r hr k hk
  cases he : (dueTasks db now).isEmpty with
  | true =>
    have hnil : (processRetryQueue hmac db now http).2.2 = [] := by
      simp [processRetryQueue, he]
    rw [hnil] at hr
    cases hr
  | false =>
    rw [processRetryQueue_reqs hmac db now http he] at hr
    obtain ⟨u, hu, db2, hwb, hx⟩ :=
      runRetries_req_attribution hmac now http (dueTasks db now) db r hr
    obtain ⟨w, pj, hfw, hact, hpj, hreq⟩ :=
      processRetryTask_req_spec hmac now http db2 u r hx
    rw [hreq] at hk
    have hk2 : some u.retryCount = some k := hk
    rw [← Option.some.inj hk2]
    exact dueTasks_retryCount_lt db now u hu

/-- C5: the retry-failure update rule at the queue level.  A due task whose
attempt fails is deleted when the new count reaches the five-attempt
ceiling or the failure is non-retryable; otherwise its row is updated in
place: count incremented, `nextRetryAt` set to now plus the backoff table
`[1, 5, 15, 30, 60]` indexed by the new count (60 beyond the table), and
`lastError` set to the attempt's error text.  Moreover no request a queue
run ever sends carries a retry count of five or more, so no sixth attempt
occurs. -/
theorem retry_failure_update_rule (hmac : String → String → String) (db : Db)
    (now : Int) (http : Nat → HttpOutcome) (t : WebhookRetry) (w : Webhook)
    (pj : WireJson.Jval) (resp : Option (Nat × String)) (msg : String)
    (hnd : (db.retries.map (fun u => u.id)).Nodup) (hmem : t ∈ db.retries)
    (hdue : t.nextRetryAt ≤ now) (hcnt : t.retryCount < 5)
    (hfw : findWebhook db t.webhookId = some w) (hact : w.isActive = true)
    (hpj : parseJson t.payload = some pj) (hhttp : http t.id = .fail resp msg) :
    ((5 ≤ t.retryCount + 1 ∨ shouldRetry (errStatus resp) = false) →
       findRetry (processRetryQueue hmac db now http).2.1 t.id = none) ∧
    (shouldRetry (errStatus resp) = true → t.retryCount + 1 < 5 →
       findRetry (processRetryQueue hmac db now http).2.1 t.id = some { t with retryCount := t.retryCount + 1, nextRetryAt := now + (([1, 5, 15, 30, 60] : List Nat).getD (t.retryCount + 1) 60 : Int), lastError := some (errText resp msg) }) ∧
    (∀ r ∈ (processRetryQueue hmac db now http).2.2, ∀ k,
       r.retryCountHeader = some k → k < 5) := by
  have htdue : t ∈ dueTasks db now := mem_dueTasks db now t hmem hdue hcnt
  have hne : (dueTasks db now).isEmpty = false := dueTasks_isEmpty_false db now t htdue
  have hdb : (processRetryQueue hmac db now http).2.1
      = (runRetries hmac now http db (dueTasks db now)).1 :=
    processRetryQueue_db hmac db now http hne
  have hself : findRetry (runRetries hmac now http db (dueTasks db now)).1 t.id
      = findRetry (processRetryTask hmac now http db t).1 t.id :=
    runRetries_find_self hmac now http (dueTasks db now) db db t htdue
      (dueTasks_ids_nodup db now hnd) rfl rfl
  have hstep : (processRetryTask hmac now http db t).1
      = (retryFailure now db t (errStatus resp) (errText resp msg)).1 := by
    unfold processRetryTask
    rw [hfw]
    simp only [hact, if_true]
    rw [hpj, hhttp]
  refine ⟨?_, ?_, ?_⟩
  · intro hdel
    have hcond : (decide (5 ≤ t.retryCount + 1) || !shouldRetry (errStatus resp)) = true := by
      rcases hdel with h | h
      · rw [decide_eq_true h, Bool.true_or]
      · rw [h, Bool.not_false, Bool.or_true]
    rw [hdb, hself, hstep]
    simp only [retryFailure]
    split
    · exact find_removeRetry_self db.retries t.id
    · rename_i hc
      exact absurd hcond hc
  · intro hsr hlt
    have h1 : decide (5 ≤ t.retryCount + 1) = false := decide_eq_false (Nat.not_le.mpr hlt)
    have hcond : (decide (5 ≤ t.retryCount + 1) || !shouldRetry (errStatus resp)) = false := by
      rw [h1, hsr, Bool.not_true, Bool.or_false]
    rw [hdb, hself, hstep]
    simp only [retryFailure]
    split
    · rename_i hc
      rw [hcond] at hc
      exact absurd hc (by decide)
    · refine (find_updateRetry_self db.retries t.id (fun u => { u with retryCount := t.retryCount + 1, nextRetryAt := calculateNextRetryTime (t.retryCount + 1) now, lastError := some (errText resp msg) }) (fun u => rfl)).trans ?_
      rw [find_of_mem_nodup db.retries t hmem hnd]
      rfl
  · exact processRetryQueue_count_lt hmac db now http

/-- C5 witness: `task1` (count 0, due at 5) answered with HTTP 503 is kept
and updated to count 1, next retry at `5 + 5` minutes, last error the 503
status text. -/
theorem retry_failure_update_rule_witness :
    findRetry (processRetryQueue hmacModel dbR 5 http503).2.1 task1.id
      = some { task1 with retryCount := 1, nextRetryAt := 5 + (([1, 5, 15, 30, 60] : List Nat).getD 1 60 : Int), lastError := some "Service Unavailable" } :=
  (retry_failure_update_rule hmacModel dbR 5 http503 task1 wh1
    (payloadJ "wh_abc123" "document.created" "2024-05-01T10:00:00.000Z" dataSample)
    (some (503, "Service Unavailable")) "Request failed"
    (by decide) (by decide) (by decide) (by decide) (by decide) (by decide) (by decide)
    rfl).2.1 (by decide) (by decide)

/-- C9: a due task whose owning subscription row is missing or deactivated
is deleted by the queue run with no HTTP attempt: the single-task step
returns exactly the store with the task row removed (so no delivery row
and no other change), and over the whole run the task is gone, no sent
request is attributed to it, and the webhook table is untouched. -/
theorem retry_inactive_deleted (hmac : String → String → String) (db : Db) (now : Int)
    (http : Nat → HttpOutcome) (t : WebhookRetry)
    (hnd : (db.retries.map (fun u => u.id)).Nodup) (hmem : t ∈ db.retries)
    (hdue : t.nextRetryAt ≤ now) (hcnt : t.retryCount < 5)
    (hveto : findWebhook db t.webhookId = none ∨
      ∃ w, findWebhook db t.webhookId = some w ∧ w.isActive = false) :
    processRetryTask hmac now http db t
      = ({ db with retries := removeRetry t.id db.retries }, none, .inactive t.id) ∧
    findRetry (processRetryQueue hmac db now http).2.1 t.id = none ∧
    (∀ r ∈ (processRetryQueue hmac db now http).2.2, ¬ r.taskId = some t.id) ∧
    (processRetryQueue hmac db now http).2.1.webhooks = db.webhooks := by
  have hstep := processRetryTask_inactive hmac now http db t hveto
  have htdue : t ∈ dueTasks db now := mem_dueTasks db now t hmem hdue hcnt
  have hne : (dueTasks db now).isEmpty = false := dueTasks_isEmpty_false db now t htdue
  have hdb := processRetryQueue_db hmac db now http hne
  refine ⟨hstep, ?_, ?_, ?_⟩
  · rw [hdb, runRetries_find_self hmac now http (dueTasks db now) db db t htdue
      (dueTasks_ids_nodup db now hnd) rfl rfl, hstep]
    exact find_removeRetry_self db.retries t.id
  · intro r hr hrid
    rw [processRetryQueue_reqs hmac db now http hne] at hr
    obtain ⟨u, hu, db2, hwb, hx⟩ :=
      runRetries_req_attribution hmac now http (dueTasks db now) db r hr
    obtain ⟨w, pj, hfw, hact, hpj, hreq⟩ :=
      processRetryTask_req_spec hmac now http db2 u r hx
    rw [hreq] at hrid
    have hid2 : some u.id = some t.id := hrid
    have hid : u.id = t.id := Option.some.inj hid2
    have hut : u = t := by
      have h1 := find_of_mem_nodup db.retries t hmem hnd
      have h2 := find_of_mem_nodup db.retries u (dueTasks_sub db now u hu) hnd
      rw [hid] at h2
      exact Option.some.inj (h2.symm.trans h1)
    rw [hut] at hx
    have hveto2 : findWebhook db2 t.webhookId = none ∨
        ∃ w, findWebhook db2 t.webhookId = some w ∧ w.isActive = false := by
      rw [findWebhook_congr db db2 hwb t.webhookId]
      exact hveto
    rw [processRetryTask_inactive hmac now http db2 t hveto2] at hx
    exact Option.noConfusion hx
  · rw [hdb]
    exact runRetries_webhooks hmac now http (dueTasks db now) db

/-- C9 witness: `taskOff` is owned by the deactivated subscription
`whOff`; a queue run at time 5 removes it and leaves the webhook table of
`dbR` unchanged. -/
theorem retry_inactive_deleted_witness :
    findRetry (processRetryQueue hmacModel dbR 5 http503).2.1 taskOff.id = none ∧
    (processRetryQueue hmacModel dbR 5 http503).2.1.webhooks = dbR.webhooks := by
  have h := retry_inactive_deleted hmacModel dbR 5 http503 taskOff (by decide) (by decide)
    (by decide) (by decide) (Or.inr ⟨whOff, by decide, by decide⟩)
  exact ⟨h.2.1, h.2.2.2⟩

theorem triggerStep_req (hmac : String → String → String) (event payloadId body : String)
    (now : Int) (http : Nat → HttpOutcome) (db : Db) (w : Webhook) :
    (triggerStep hmac event payloadId body now http db w).2.1
      = { webhookId := w.id, taskId := none, url := w.url, body := body, signature := hmac w.secret body, eventHeader := event, deliveryHeader := payloadId, retryCountHeader := none } := by
  unfold triggerStep
  cases hh : http w.id with
  | ok st txt => rfl
  | fail resp msg => rfl

theorem runTrigger_req_spec (hmac : String → String → String)
    (event payloadId body : String) (now : Int) (http : Nat → HttpOutcome) :
    ∀ (ws : List Webhook) (db : Db) (r : SentRequest),
      r ∈ (runTrigger hmac event payloadId body now http db ws).2.1 →
      ∃ w ∈ ws, r = { webhookId := w.id, taskId := none, url := w.url, body := body, signature := hmac w.secret body, eventHeader := event, deliveryHeader := payloadId, retryCountHeader := none } := by
  intro ws
  induction ws with
  | nil =>
    intro db r hr
    cases hr
  | cons w ws ih =>
    intro db r hr
    simp only [runTrigger] at hr
    rcases List.mem_cons.mp hr with h | h
    · exact ⟨w, List.mem_cons_self w ws,
        h.trans (triggerStep_req hmac event payloadId body now http db w)⟩
    · obtain ⟨w2, hw2, hr2⟩ := ih _ r h
      exact ⟨w2, List.mem_cons_of_mem w hw2, hr2⟩

theorem triggerStep_retries_wf (hmac : String → String → String)
    (event payloadId body : String) (now : Int) (http : Nat → HttpOutcome)
    (db : Db) (w : Webhook) (hbody : ∃ v : WireJson.Jval, body = stringifyJ v)
    (hdb : ∀ u ∈ db.retries, ∃ v : WireJson.Jval, u.payload = stringifyJ v) :
    ∀ u ∈ (triggerStep hmac event payloadId body now http db w).1.retries,
      ∃ v : WireJson.Jval, u.payload = stringifyJ v := by
  cases hh : http w.id with
  | ok st txt =>
    have hret : (triggerStep hmac event payloadId body now http db w).1.retries
        = db.retries := by
      unfold triggerStep
      rw [hh]
    intro u hu
    rw [hret] at hu
    exact hdb u hu
  | fail resp msg =>
    have hret : (triggerStep hmac event payloadId body now http db w).1.retries
        = (if shouldRetry (errStatus resp)
           then db.retries ++ [{ id := db.nextRetryId, webhookId := w.id, payload := body, retryCount := 0, nextRetryAt := calculateNextRetryTime 0 now, lastError := none }]
           else db.retries) := by
      simp only [triggerStep, hh]
      by_cases hs : shouldRetry (errStatus resp) = true
      · simp [hs]
      · simp only [Bool.not_eq_true] at hs
        simp [hs]
    intro u hu
    rw [hret] at hu
    by_cases hs : shouldRetry (errStatus resp) = true
    · rw [if_pos hs] at hu
      rcases List.mem_append.mp hu with h | h
      · exact hdb u h
      · have he : u = { id := db.nextRetryId, webhookId := w.id, payload := body, retryCount := 0, nextRetryAt := calculateNextRetryTime 0 now, lastError := none } :=
          List.mem_singleton.mp h
        rw [he]
        exact hbody
    · rw [if_neg hs] at hu
      exact hdb u hu

theorem runTrigger_retries_wf (hmac : String → String → String)
    (event payloadId body : String) (now : Int) (http : Nat → HttpOutcome)
    (hbody : ∃ v : WireJson.Jval, body = stringifyJ v) :
    ∀ (ws : List Webhook) (db : Db),
      (∀ u ∈ db.retries, ∃ v : WireJson.Jval, u.payload = stringifyJ v) →
      ∀ u ∈ (runTrigger hmac event payloadId body now http db ws).1.retries,
        ∃ v : WireJson.Jval, u.payload = stringifyJ v := by
  intro ws
  induction ws with
  | nil =>
    intro db hdb u hu
    exact hdb u hu
  | cons w ws ih =>
    intro db hdb u hu
    simp only [runTrigger] at hu
    exact ih _ (triggerStep_retries_wf hmac event payloadId body now http db w hbody hdb) u hu

/-- C8: every delivery attempt signs exactly the transmitted body.  Each
initial dispatch request is signed, with the matched subscription's
secret, over the serialized envelope it carries as body; dispatch enqueues
only payloads that are serializer images, preserving that invariant of the
store; and on a store satisfying it every retry request's signature — an
HMAC of the stored payload string — equals the HMAC of the re-serialized
body actually POSTed, because re-parsing and re-serializing a serializer
image is the identity. -/
theorem signatures_match_transmitted_body (hmac : String → String → String) (db : Db)
    (event : String) (data : WireJson.Jval) (teamId : Option Int)
    (payloadId nowIso : String) (now : Int) (http : Nat → HttpOutcome)
    (hwf : ∀ u ∈ db.retries, ∃ v : WireJson.Jval, u.payload = stringifyJ v) :
    (∀ r ∈ (triggerWebhooks hmac db event data teamId payloadId nowIso now http).2.2,
       ∃ w ∈ db.webhooks, r.webhookId = w.id ∧ r.signature = hmac w.secret r.body) ∧
    (∀ u ∈ (triggerWebhooks hmac db event data teamId payloadId nowIso now http).2.1.retries,
       ∃ v : WireJson.Jval, u.payload = stringifyJ v) ∧
    (∀ r ∈ (processRetryQueue hmac db now http).2.2,
       ∃ w ∈ db.webhooks, r.webhookId = w.id ∧ r.signature = hmac w.secret r.body) := by
  refine ⟨?_, ?_, ?_⟩
  · intro r hr
    cases hm : (db.webhooks.filter (matchesEvent event teamId)).isEmpty with
    | true =>
      have hnil : (triggerWebhooks hmac db event data teamId payloadId nowIso now http).2.2
          = [] := by
        simp [triggerWebhooks, hm]
      rw [hnil] at hr
      cases hr
    | false =>
      have hreqs : (triggerWebhooks hmac db event data teamId payloadId nowIso now http).2.2
          = (runTrigger hmac event payloadId
              (stringifyJ (payloadJ payloadId event nowIso data)) now http db
              (db.webhooks.filter (matchesEvent event teamId))).2.1 := by
        simp only [triggerWebhooks]
        rw [hm]
        rfl
      rw [hreqs] at hr
      obtain ⟨w, hw, hrw⟩ := runTrigger_req_spec hmac event payloadId _ now http
        (db.webhooks.filter (matchesEvent event teamId)) db r hr
      refine ⟨w, List.mem_of_mem_filter hw, ?_, ?_⟩
      · rw [hrw]
      · rw [hrw]
  · cases hm : (db.webhooks.filter (matchesEvent event teamId)).isEmpty with
    | true =>
      intro u hu
      have hdbe : (triggerWebhooks hmac db event data teamId payloadId nowIso now http).2.1
          = db := by
        simp [triggerWebhooks, hm]
      rw [hdbe] at hu
      exact hwf u hu
    | false =>
      have hdbe : (triggerWebhooks hmac db event data teamId payloadId nowIso now http).2.1
          = (runTrigger hmac event payloadId
              (stringifyJ (payloadJ payloadId event nowIso data)) now http db
              (db.webhooks.filter (matchesEvent event teamId))).1 := by
        simp only [triggerWebhooks]
        rw [hm]
        rfl
      intro u hu
      rw [hdbe] at hu
      exact runTrigger_retries_wf hmac event payloadId _ now http
        ⟨payloadJ payloadId event nowIso data, rfl⟩
        (db.webhooks.filter (matchesEvent event teamId)) db hwf u hu
  · intro r hr
    cases he : (dueTasks db now).isEmpty with
    | true =>
      have hnil : (processRetryQueue hmac db now http).2.2 = [] := by
        simp [processRetryQueue, he]
      rw [hnil] at hr
      cases hr
    | false =>
      rw [processRetryQueue_reqs hmac db now http he] at hr
      obtain ⟨u, hu, db2, hwb, hx⟩ :=
        runRetries_req_attribution hmac now http (dueTasks db now) db r hr
      obtain ⟨w, pj, hfw, hact, hpj, hreq⟩ :=
        processRetryTask_req_spec hmac now http db2 u r hx
      obtain ⟨v, hv⟩ := hwf u (dueTasks_sub db now u hu)
      have hpjv : pj = v := by
        rw [hv, parseJson_stringifyJ] at hpj
        exact (Option.some.inj hpj).symm
      have hwmem : w ∈ db.webhooks := by
        have h2 : findWebhook db u.webhookId = some w :=
          (findWebhook_congr db db2 hwb u.webhookId).symm.trans hfw
        exact List.mem_of_find?_eq_some h2
      refine ⟨w, hwmem, ?_, ?_⟩
      · rw [hreq]
      · rw [hreq]
        show hmac w.secret u.payload = hmac w.secret (stringifyJ pj)
        rw [hpjv, hv]

/-- C8 witness: the retry POST for `task1` in `dbC8` is signed with the
secret of its owning subscription `wh1` over exactly the body it
transmits. -/
theorem signatures_match_transmitted_body_witness :
    ∃ w ∈ dbC8.webhooks, c8req.webhookId = w.id ∧
      c8req.signature = hmacModel w.secret c8req.body :=
  (signatures_match_transmitted_body hmacModel dbC8 "document.created" dataSample none
      "wh_z" "t" 5 http503
      (by
        intro u hu
        have hu2 : u ∈ [task1] := hu
        have he : u = task1 := List.mem_singleton.mp hu2
        rw [he]
        exact ⟨payloadJ "wh_abc123" "document.created" "2024-05-01T10:00:00.000Z" dataSample, rfl⟩)).2.2
    c8req (by decide)

end WS
